import Mathlib

/-!
Verification of the Rise TinCan → IMSCC converter (`streamlit_py.py`).

Shallow embedding conventions:
* Python strings are modelled as lists of Unicode code points (`PyStr := List Nat`);
  `pystr` converts a Lean string literal to this representation.  The character
  classes used by the program (`\w`, `\s`, upper/lower-case letters) are modelled
  at ASCII fidelity, matching the behaviour of the corresponding Python regular
  expressions and string methods on ASCII input.
* `uuid.uuid4()` calls are modelled by a counter threaded through the pipeline:
  the n-th call of a conversion run yields the abstract token `Ident.gen n`.
  Identifiers extracted verbatim from operator-supplied HTML are `Ident.user s`.
  This encodes the (probabilistic) freshness of uuid tokens as exact freshness.
* The emitted XML documents (`imsmanifest.xml`, `module_meta.xml`, the rendered
  wiki HTML pages) are modelled by their element structure: records holding the
  identifiers, cross references, titles, hrefs and positions the program writes
  into the corresponding XML attributes/elements.  Constant boilerplate
  (namespace declarations, fixed course-settings files) carries no claim-relevant
  content and is elided.
-/

namespace RiseImscc

/-- Python strings as lists of Unicode code points. -/
abbrev PyStr := List Nat

/-- Convert a Lean string literal to the code-point representation. -/
def pystr (s : String) : PyStr := s.data.map Char.toNat

/-! ### Character classes (ASCII fidelity)

`wordCode` models Python's regex `\w` (alphanumeric or underscore),
`spaceCode` models `\s` (space, tab, newline, carriage return, vertical tab,
form feed), `dashSpaceCode` models the class `[-\s]` used by the second
`re.sub` in `create_safe_filename`. -/

def wordCode (c : Nat) : Bool :=
  (48 ≤ c && c ≤ 57) || (65 ≤ c && c ≤ 90) || (97 ≤ c && c ≤ 122) || c = 95

def spaceCode (c : Nat) : Bool :=
  c = 32 || c = 9 || c = 10 || c = 13 || c = 11 || c = 12

def dashSpaceCode (c : Nat) : Bool := c = 45 || spaceCode c

/-- `str.lower` on one code point (ASCII case mapping, as Python does on ASCII). -/
def lowerCode (c : Nat) : Nat := if 65 ≤ c && c ≤ 90 then c + 32 else c

/-- `str.strip()`: drop leading and trailing whitespace. -/
def pyStrip (s : PyStr) : PyStr :=
  ((s.dropWhile spaceCode).reverse.dropWhile spaceCode).reverse

/-- Python `str.endswith`: implemented, as CPython does, by comparing the
trailing slice of the subject with the suffix. -/
def pyEndsWith (s suffix : PyStr) : Bool :=
  decide (suffix.length ≤ s.length) && decide (s.drop (s.length - suffix.length) = suffix)

/-- Scanner for `str.replace(pat, '')`: `skip > 0` means the scanner is still
inside a matched occurrence and must drop `skip` more characters before
resuming the scan. -/
def pyReplaceGo (pat : PyStr) : PyStr → Nat → PyStr
  | [], _ => []
  | c :: rest, skip =>
    match skip with
    | k + 1 => pyReplaceGo pat rest k
    | 0 =>
      if pat.length = 0 then c :: rest
      else if pat.isPrefixOf (c :: rest) then pyReplaceGo pat rest (pat.length - 1)
      else c :: pyReplaceGo pat rest 0

/-- Python `str.replace(pat, '')` for a non-empty pattern: remove the
leftmost, non-overlapping occurrences of `pat`. -/
def pyReplace (pat : PyStr) (s : PyStr) : PyStr := pyReplaceGo pat s 0

/-- The trailing segment of `id.split('/')[-1]`. -/
def lastSegment (s : PyStr) : PyStr :=
  (s.reverse.takeWhile (fun c => c ≠ 47)).reverse

/-! ### `create_safe_filename` (the slug function)

```python
def create_safe_filename(title):
    safe_title = re.sub(r'[^\w\s-]', '', title.lower().strip())
    safe_title = re.sub(r'[-\s]+', '-', safe_title)
    return safe_title
```
The first `re.sub` is a character filter; the second replaces every maximal
run of `[-\s]` characters by a single hyphen (code point 45). -/

/-- `re.sub(r'[-\s]+', '-', s)`: each maximal run of dash/space characters is
replaced by one hyphen.  Structural formulation: a dash/space character is
dropped while its successor is also dash/space, and emitted as `45` otherwise. -/
def collapseRuns : PyStr → PyStr
  | [] => []
  | [c] => if dashSpaceCode c then [45] else [c]
  | c :: d :: rest =>
    if dashSpaceCode c && dashSpaceCode d then collapseRuns (d :: rest)
    else (if dashSpaceCode c then 45 else c) :: collapseRuns (d :: rest)

/-- The character filter of the first `re.sub`: keep `\w`, `\s` and `-`. -/
def keepCode (c : Nat) : Bool := wordCode c || spaceCode c || c = 45

def create_safe_filename (title : PyStr) : PyStr :=
  collapseRuns ((pyStrip (title.map lowerCode)).filter keepCode)

/-- Identifiers appearing in the generated package.  `gen n` is the token
returned by the n-th `uuid.uuid4()` call of the conversion run (freshness of
uuid tokens is modelled as exactness: distinct calls give distinct tokens);
`user s` is an identifier string extracted verbatim from operator-supplied
HTML. -/
inductive Ident where
  | gen : Nat → Ident
  | user : PyStr → Ident
deriving DecidableEq

/-! ### Activity extraction (`extract_activities`) and grouping (`organize_activities`) -/

/-- Structural role of a retained activity (`'block'` / `'section'` in the
Python dicts). -/
inductive ActType where
  | block
  | section
deriving DecidableEq

/-- One `<activity>` node of the input TinCan XML, as read by the extractor:
`id` and `type` attributes, optional `name` / `description` child elements. -/
structure ActivityNode where
  id : PyStr
  type : PyStr
  name : Option PyStr
  description : Option PyStr
deriving DecidableEq

/-- One retained activity record (the dict appended by `extract_activities`). -/
structure Activity where
  id : PyStr
  full_id : PyStr
  name : PyStr
  description : PyStr
  type : ActType
deriving DecidableEq

/-- `extract_activities`: walk the activity nodes in document order; a node
with a `name` is retained iff the name ends with `/blocks` or `/section`;
the stored name is `name.replace('/blocks','').replace('/section','')`,
the stored id the trailing `/`-segment of the full id. -/
def extract_activities : List ActivityNode → List Activity
  | [] => []
  | nd :: rest =>
    match nd.name with
    | none => extract_activities rest
    | some name =>
      let is_block := pyEndsWith name (pystr "/blocks")
      let is_section := pyEndsWith name (pystr "/section")
      if is_block || is_section then
        { id := lastSegment nd.id
          full_id := nd.id
          name := pyReplace (pystr "/section") (pyReplace (pystr "/blocks") name)
          description := nd.description.getD []
          type := if is_block then ActType.block else ActType.section } ::
          extract_activities rest
      else extract_activities rest

/-- A page record inside a module: the activity dict, to which the conversion
later adds an `'identifier'` key (modelled as an `Option`). -/
structure PageRec extends Activity where
  identifier : Option Ident := none
deriving DecidableEq

/-- A module produced by `organize_activities`. -/
structure Module where
  title : PyStr
  id : PyStr
  pages : List PageRec
deriving DecidableEq

def toPageRec (a : Activity) : PageRec := { a with identifier := none }

/-- The loop body of `organize_activities`: `acc` is the list of already
flushed modules, `cur` is `current_module` (Python mutates the dict that is
already in `modules`; functionally, the current module is flushed when the
next section starts or the loop ends). -/
def organizeLoop : List Activity → List Module → Option Module → List Module
  | [], acc, none => acc
  | [], acc, some m => acc ++ [m]
  | a :: rest, acc, cur =>
    match a.type with
    | ActType.section =>
      match cur with
      | none => organizeLoop rest acc (some ⟨a.name, a.id, []⟩)
      | some m => organizeLoop rest (acc ++ [m]) (some ⟨a.name, a.id, []⟩)
    | ActType.block =>
      match cur with
      | none => organizeLoop rest acc none
      | some m => organizeLoop rest acc (some ⟨m.title, m.id, m.pages ++ [toPageRec a]⟩)

/-- `organize_activities`: single in-order sweep grouping blocks under the
most recent section. -/
def organize_activities (activities : List Activity) : List Module :=
  organizeLoop activities [] none

/-! ### Spec-side definitions (transcribed from the claims' wording) -/

def isSectionA (a : Activity) : Bool := a.type == ActType.section

def isBlockA (a : Activity) : Bool := a.type == ActType.block

/-- Spec-side hierarchy builder, following the claim wording: each Section
opens a new Module whose pages are the Block activities up to the next
Section; Blocks before the first Section are dropped. -/
def organizeSpec : List Activity → List Module
  | [] => []
  | a :: rest =>
    if isSectionA a then
      ⟨a.name, a.id, (rest.takeWhile (fun b => !isSectionA b)).map toPageRec⟩ ::
        organizeSpec (rest.dropWhile (fun b => !isSectionA b))
    else organizeSpec rest
termination_by l => l.length
decreasing_by
  · have h := (List.dropWhile_sublist (l := rest) (fun b => !isSectionA b)).length_le
    simp only [List.length_cons]
    omega
  · simp

/-- Spec-side per-node extraction for the amended claim C2: retention is an
exact-suffix test (expressed through `List.IsSuffix`), and the stored name has
every occurrence of `/blocks` and then of `/section` removed. -/
def extractSpecOne (nd : ActivityNode) : Option Activity :=
  match nd.name with
  | none => none
  | some name =>
    if (pystr "/blocks") <:+ name ∨ (pystr "/section") <:+ name then
      some { id := lastSegment nd.id
             full_id := nd.id
             name := pyReplace (pystr "/section") (pyReplace (pystr "/blocks") name)
             description := nd.description.getD []
             type := if (pystr "/blocks") <:+ name then ActType.block else ActType.section }
    else none

/-- Per-node extraction exactly as claim C2 states it: the stored name is the
raw name with only the matched trailing suffix removed. -/
def extractClaimC2One (nd : ActivityNode) : Option Activity :=
  match nd.name with
  | none => none
  | some name =>
    if (pystr "/blocks") <:+ name ∨ (pystr "/section") <:+ name then
      some { id := lastSegment nd.id
             full_id := nd.id
             name := if (pystr "/blocks") <:+ name then name.take (name.length - 7)
                     else name.take (name.length - 8)
             description := nd.description.getD []
             type := if (pystr "/blocks") <:+ name then ActType.block else ActType.section }
    else none

/-- ASCII alphanumeric class (claim C4's "alphanumeric"). -/
def alnumCode (c : Nat) : Bool :=
  (48 ≤ c && c ≤ 57) || (65 ≤ c && c ≤ 90) || (97 ≤ c && c ≤ 122)

/-- Trim leading and trailing hyphens (claim C4's final step). -/
def trimDashes (s : PyStr) : PyStr :=
  ((s.dropWhile (fun c => c == 45)).reverse.dropWhile (fun c => c == 45)).reverse

/-- The slug function exactly as claim C4 states it: lower-case, remove every
character that is not alphanumeric, whitespace or hyphen (underscores are
removed), collapse runs, trim leading/trailing hyphens. -/
def slugClaimC4 (t : PyStr) : PyStr :=
  trimDashes (collapseRuns ((t.map lowerCode).filter
    (fun c => alnumCode c || spaceCode c || c == 45)))

/-- Run collapsing written the way the claim describes it: a maximal run of
whitespace/hyphen characters becomes one hyphen (skip the rest of the run with
`dropWhile`). -/
def collapseSpec : PyStr → PyStr
  | [] => []
  | c :: rest =>
    if dashSpaceCode c then 45 :: collapseSpec (rest.dropWhile dashSpaceCode)
    else c :: collapseSpec rest
termination_by s => s.length
decreasing_by
  · have h := (List.dropWhile_sublist (l := rest) dashSpaceCode).length_le
    simp only [List.length_cons]
    omega
  · simp

/-- The slug function as amended for claim C4: same pipeline as the code
(strip whitespace, keep word/space/hyphen characters, collapse runs, no
hyphen trimming) with the collapsing step in the spec's formulation. -/
def slugAmendedC4 (t : PyStr) : PyStr :=
  collapseSpec ((pyStrip (t.map lowerCode)).filter keepCode)

/-! ### Lemmas about the slug pipeline -/

theorem lowerCode_idem (c : Nat) : lowerCode (lowerCode c) = lowerCode c := by
  simp only [lowerCode, Bool.and_eq_true, decide_eq_true_eq]
  split <;> (try split) <;> omega

theorem collapseSpec_nil : collapseSpec [] = [] := by rw [collapseSpec]

theorem collapseSpec_cons (c : Nat) (s : PyStr) :
    collapseSpec (c :: s) =
      if dashSpaceCode c = true then 45 :: collapseSpec (s.dropWhile dashSpaceCode)
      else c :: collapseSpec s := by
  rw [collapseSpec]

theorem collapseRuns_one (c : Nat) :
    collapseRuns [c] = if dashSpaceCode c = true then [45] else [c] := rfl

theorem collapseRuns_pair (c d : Nat) (rest : PyStr) :
    collapseRuns (c :: d :: rest) =
      if (dashSpaceCode c && dashSpaceCode d) = true then collapseRuns (d :: rest)
      else (if dashSpaceCode c = true then 45 else c) :: collapseRuns (d :: rest) := rfl

theorem collapseRuns_eq_collapseSpec : ∀ s : PyStr, collapseRuns s = collapseSpec s := by
  intro s
  induction s using collapseRuns.induct with
  | case1 => rw [collapseSpec_nil]; rfl
  | case2 c h =>
    rw [collapseRuns_one, if_pos h, collapseSpec_cons, if_pos h, List.dropWhile_nil,
      collapseSpec_nil]
  | case3 c h =>
    rw [collapseRuns_one, if_neg h, collapseSpec_cons, if_neg h, collapseSpec_nil]
  | case4 c d rest h ih =>
    have hc : dashSpaceCode c = true := ((Bool.and_eq_true _ _).mp h).1
    have hd : dashSpaceCode d = true := ((Bool.and_eq_true _ _).mp h).2
    rw [collapseRuns_pair, if_pos h, ih, collapseSpec_cons c (d :: rest), if_pos hc,
      List.dropWhile_cons, if_pos hd, collapseSpec_cons d rest, if_pos hd]
  | case5 c d rest h ih =>
    by_cases hc : dashSpaceCode c = true
    · have hd : dashSpaceCode d = false := by
        cases hdd : dashSpaceCode d
        · rfl
        · exact absurd (by rw [hc, hdd]; rfl) h
      rw [collapseRuns_pair, if_neg h, ih, if_pos hc, collapseSpec_cons c (d :: rest),
        if_pos hc, List.dropWhile_cons, if_neg (by simp [hd])]
    · rw [collapseRuns_pair, if_neg h, ih, if_neg hc, collapseSpec_cons c (d :: rest),
        if_neg hc]

/-- Characters of `collapseRuns s` are either the hyphen or non-dash/space
characters of `s`. -/
theorem mem_collapseRuns : ∀ (s : PyStr) (c : Nat), c ∈ collapseRuns s →
    c = 45 ∨ (c ∈ s ∧ dashSpaceCode c = false) := by
  intro s
  induction s using collapseRuns.induct with
  | case1 => intro c hc; simp [collapseRuns] at hc
  | case2 d h => intro c hc; rw [collapseRuns_one, if_pos h] at hc; left; simpa using hc
  | case3 d h =>
    intro c hc
    rw [collapseRuns_one, if_neg h] at hc
    have hcd : c = d := by simpa using hc
    subst hcd
    exact Or.inr ⟨by simp, Bool.eq_false_iff.mpr h⟩
  | case4 c0 d rest h ih =>
    intro c hc
    rw [collapseRuns_pair, if_pos h] at hc
    rcases ih c hc with h45 | ⟨hmem, hnd⟩
    · exact Or.inl h45
    · exact Or.inr ⟨by simp [hmem], hnd⟩
  | case5 c0 d rest h ih =>
    intro c hc
    rw [collapseRuns_pair, if_neg h] at hc
    rcases List.mem_cons.mp hc with hhd | htl
    · by_cases hc0 : dashSpaceCode c0 = true
      · rw [if_pos hc0] at hhd; exact Or.inl hhd
      · rw [if_neg hc0] at hhd
        subst hhd
        exact Or.inr ⟨by simp, Bool.eq_false_iff.mpr hc0⟩
    · rcases ih c htl with h45 | ⟨hmem, hnd⟩
      · exact Or.inl h45
      · exact Or.inr ⟨by simp [hmem], hnd⟩

/-- `collapseRuns` of a cons starts with the collapsed head character. -/
theorem collapseRuns_cons_head : ∀ (s : PyStr) (c : Nat),
    ∃ t, collapseRuns (c :: s) = (if dashSpaceCode c then 45 else c) :: t := by
  intro s
  induction s with
  | nil =>
    intro c
    exact ⟨[], by rw [collapseRuns_one]; by_cases h : dashSpaceCode c = true <;> simp [h]⟩
  | cons d rest ih =>
    intro c
    by_cases h : (dashSpaceCode c && dashSpaceCode d) = true
    · have hc : dashSpaceCode c = true := ((Bool.and_eq_true _ _).mp h).1
      have hd : dashSpaceCode d = true := ((Bool.and_eq_true _ _).mp h).2
      rcases ih d with ⟨t, ht⟩
      exact ⟨t, by rw [collapseRuns_pair, if_pos h, ht, hc, hd]; simp⟩
    · exact ⟨collapseRuns (d :: rest), by rw [collapseRuns_pair, if_neg h]⟩

/-- No two adjacent dash/space characters. -/
def noAdjacentDashSpace : PyStr → Bool
  | [] => true
  | [_] => true
  | c :: d :: rest => (!(dashSpaceCode c && dashSpaceCode d)) && noAdjacentDashSpace (d :: rest)

theorem noAdjacentDashSpace_collapseRuns : ∀ s : PyStr,
    noAdjacentDashSpace (collapseRuns s) = true := by
  intro s
  induction s using collapseRuns.induct with
  | case1 => rfl
  | case2 c h => rw [collapseRuns_one, if_pos h]; rfl
  | case3 c h => rw [collapseRuns_one, if_neg h]; rfl
  | case4 c d rest h ih => rw [collapseRuns_pair, if_pos h]; exact ih
  | case5 c d rest h ih =>
    rw [collapseRuns_pair, if_neg h]
    rcases collapseRuns_cons_head rest d with ⟨t, ht⟩
    rw [ht]
    rw [ht] at ih
    by_cases hc : dashSpaceCode c = true
    · have hd : dashSpaceCode d = false := by
        cases hdd : dashSpaceCode d
        · rfl
        · exact absurd (by rw [hc, hdd]; rfl) h
      rw [if_pos hc, hd]
      simpa [noAdjacentDashSpace, hd] using ih
    · have hc' : dashSpaceCode c = false := by simpa using hc
      rw [if_neg hc]
      simp only [noAdjacentDashSpace, Bool.and_eq_true, Bool.not_eq_true']
      exact ⟨by simp [hc'], ih⟩

/-- On a string with no whitespace and no adjacent dash/space pair,
`collapseRuns` is the identity. -/
theorem collapseRuns_eq_self : ∀ s : PyStr,
    (∀ c ∈ s, spaceCode c = false) → noAdjacentDashSpace s = true →
    collapseRuns s = s := by
  intro s
  induction s with
  | nil => intro _ _; rfl
  | cons c rest ih =>
    intro hs hn
    cases rest with
    | nil =>
      by_cases h : dashSpaceCode c = true
      · have hc45 : c = 45 := by
          have hsp := hs c (by simp)
          simp [dashSpaceCode, hsp] at h
          exact h
        rw [collapseRuns_one, if_pos h, hc45]
      · rw [collapseRuns_one, if_neg h]
    | cons d rest2 =>
      have hpair : (dashSpaceCode c && dashSpaceCode d) = false := by
        have hn2 := hn
        simp only [noAdjacentDashSpace, Bool.and_eq_true, Bool.not_eq_true'] at hn2
        exact hn2.1
      rw [collapseRuns_pair, if_neg (by simp [hpair])]
      have htail : collapseRuns (d :: rest2) = d :: rest2 := by
        apply ih
        · intro x hx; exact hs x (by simp [hx])
        · have := hn
          simp only [noAdjacentDashSpace, Bool.and_eq_true] at this
          exact this.2
      rw [htail]
      by_cases h : dashSpaceCode c = true
      · have : c = 45 := by
          have hsp := hs c (by simp)
          simp [dashSpaceCode, hsp] at h
          exact h
        rw [if_pos h, this]
      · rw [if_neg h]

theorem dropWhile_eq_self_of (p : Nat → Bool) (l : PyStr)
    (h : ∀ c ∈ l, p c = false) : l.dropWhile p = l := by
  cases l with
  | nil => rfl
  | cons c t => rw [List.dropWhile_cons, h c (by simp)]; rfl

theorem pyStrip_eq_self (s : PyStr) (h : ∀ c ∈ s, spaceCode c = false) :
    pyStrip s = s := by
  unfold pyStrip
  rw [dropWhile_eq_self_of spaceCode s h,
    dropWhile_eq_self_of spaceCode s.reverse (by intro c hc; exact h c (by simpa using hc)),
    List.reverse_reverse]

theorem mem_pyStrip {c : Nat} {s : PyStr} (h : c ∈ pyStrip s) : c ∈ s := by
  unfold pyStrip at h
  rw [List.mem_reverse] at h
  have h1 := (List.dropWhile_sublist spaceCode (l := (s.dropWhile spaceCode).reverse)).mem h
  rw [List.mem_reverse] at h1
  exact (List.dropWhile_sublist spaceCode (l := s)).mem h1

/-- Every character of a slug is a kept, non-whitespace, lower-case-fixed
character. -/
theorem mem_create_safe_filename {c : Nat} {t : PyStr}
    (h : c ∈ create_safe_filename t) :
    keepCode c = true ∧ spaceCode c = false ∧ lowerCode c = c := by
  unfold create_safe_filename at h
  rcases mem_collapseRuns _ c h with h45 | ⟨hmem, hnd⟩
  · subst h45; refine ⟨by decide, by decide, by decide⟩
  · have hkeep : keepCode c = true := (List.mem_filter.mp hmem).2
    have hmem2 : c ∈ pyStrip (t.map lowerCode) := (List.mem_filter.mp hmem).1
    have hmem3 : c ∈ t.map lowerCode := mem_pyStrip hmem2
    rcases List.mem_map.mp hmem3 with ⟨c0, _, hc0⟩
    refine ⟨hkeep, ?_, by rw [← hc0, lowerCode_idem]⟩
    have : dashSpaceCode c = false := hnd
    simp only [dashSpaceCode, Bool.or_eq_false_iff] at this
    exact this.2

/-! ### Claims C4 and C5: the slug function -/

/-- Claim C4, counterexample: on the title `"_"` the slug returned by
`create_safe_filename` is `"_"` (Python's `\w` keeps underscores), while the
claim's description (strip every character that is not alphanumeric,
whitespace or hyphen; trim hyphens) yields `""`.  The claim as stated is
therefore false. -/
theorem C4_counterexample :
    create_safe_filename (pystr "_") ≠ slugClaimC4 (pystr "_") := by decide

/-- Claim C4 (amended): `create_safe_filename` returns the title lower-cased
and stripped of leading/trailing whitespace, with every character that is not
a word character (alphanumeric or underscore), whitespace, or hyphen removed,
and every maximal run of whitespace/hyphen characters collapsed into a single
hyphen; leading and trailing hyphens are not trimmed. -/
theorem C4_slug_amended (t : PyStr) : create_safe_filename t = slugAmendedC4 t := by
  unfold create_safe_filename slugAmendedC4
  rw [collapseRuns_eq_collapseSpec]

/-- Claim C5: the slug function is deterministic (equal inputs give equal
outputs) and idempotent: `create_safe_filename (create_safe_filename x) =
create_safe_filename x` for every string `x`. -/
theorem C5_slug_deterministic_idempotent (x y : PyStr) :
    (x = y → create_safe_filename x = create_safe_filename y) ∧
      create_safe_filename (create_safe_filename x) = create_safe_filename x := by
  refine ⟨fun h => by rw [h], ?_⟩
  have hchar : ∀ c ∈ create_safe_filename x,
      keepCode c = true ∧ spaceCode c = false ∧ lowerCode c = c :=
    fun c hc => mem_create_safe_filename hc
  have hnadj : noAdjacentDashSpace (create_safe_filename x) = true := by
    unfold create_safe_filename
    exact noAdjacentDashSpace_collapseRuns _
  have hmap : (create_safe_filename x).map lowerCode = create_safe_filename x := by
    rw [List.map_congr_left (g := id) (fun a ha => (hchar a ha).2.2), List.map_id]
  have hstrip : pyStrip (create_safe_filename x) = create_safe_filename x :=
    pyStrip_eq_self _ (fun c hc => (hchar c hc).2.1)
  have hfilter : (create_safe_filename x).filter keepCode = create_safe_filename x :=
    List.filter_eq_self.mpr (fun c hc => (hchar c hc).1)
  conv_lhs => rw [create_safe_filename]
  rw [hmap, hstrip, hfilter]
  exact collapseRuns_eq_self _ (fun c hc => (hchar c hc).2.1) hnadj

/-- Witness for C5 at the concrete title `"A b"`. -/
theorem C5_witness :
    create_safe_filename (create_safe_filename (pystr "A b")) =
      create_safe_filename (pystr "A b") :=
  (C5_slug_deterministic_idempotent (pystr "A b") (pystr "A b")).2

/-! ### Claim C2: the extraction suffix law -/

theorem pyEndsWith_iff (s suffix : PyStr) : pyEndsWith s suffix = true ↔ suffix <:+ s := by
  simp only [pyEndsWith, Bool.and_eq_true, decide_eq_true_eq]
  constructor
  · rintro ⟨_, hdrop⟩
    exact List.suffix_iff_eq_drop.mpr hdrop.symm
  · intro h
    exact ⟨h.length_le, (List.suffix_iff_eq_drop.mp h).symm⟩

theorem pyEndsWith_eq_decide (s suffix : PyStr) :
    pyEndsWith s suffix = decide (suffix <:+ s) := by
  by_cases h : suffix <:+ s
  · simp [h, (pyEndsWith_iff s suffix).mpr h]
  · simp only [h, decide_False]
    exact Bool.eq_false_iff.mpr (fun hc => h ((pyEndsWith_iff s suffix).mp hc))

/-- Claim C2 (amended): an activity is retained iff its raw name ends with
exactly `/blocks` or `/section` (case-sensitive); the stored name equals the
raw name with every leftmost, non-overlapping occurrence of `/blocks` removed
and then every occurrence of `/section` removed from the result — not only the
trailing suffix. -/
theorem C2_extraction_suffix_amended (nodes : List ActivityNode) :
    extract_activities nodes = nodes.filterMap extractSpecOne := by
  induction nodes with
  | nil => rfl
  | cons nd rest ih =>
    rw [List.filterMap_cons]
    cases hname : nd.name with
    | none => simp only [extract_activities, hname, extractSpecOne, ih]
    | some name =>
      by_cases hb : (pystr "/blocks") <:+ name <;>
        by_cases hs : (pystr "/section") <:+ name <;>
          simp only [extract_activities, hname, extractSpecOne, ih,
            pyEndsWith_eq_decide, hb, hs, decide_True, decide_False, Bool.true_or,
            Bool.or_true, Bool.false_or, Bool.or_false, if_true, if_false,
            or_self, or_true, true_or, or_false, false_or, if_pos, ite_true, ite_false] <;>
          simp [hb, hs]

/-- Claim C2, counterexample: the activity name `"unit/blocks/section"` ends
with `/section` and is retained, but the stored name is `"unit"` — the code's
`str.replace` also removes the inner `/blocks` occurrence — while the claim
requires `"unit/blocks"` (only the trailing suffix removed). -/
theorem C2_counterexample :
    extract_activities
        [⟨pystr "http://x/abc", pystr "t", some (pystr "unit/blocks/section"), none⟩] ≠
      List.filterMap extractClaimC2One
        [⟨pystr "http://x/abc", pystr "t", some (pystr "unit/blocks/section"), none⟩] := by
  decide

/-! ### Lemmas about `organize_activities` -/

theorem organizeSpec_nil : organizeSpec [] = [] := by rw [organizeSpec]

theorem organizeSpec_cons (a : Activity) (rest : List Activity) :
    organizeSpec (a :: rest) =
      if isSectionA a = true then
        ⟨a.name, a.id, (rest.takeWhile (fun b => !isSectionA b)).map toPageRec⟩ ::
          organizeSpec (rest.dropWhile (fun b => !isSectionA b))
      else organizeSpec rest := by
  rw [organizeSpec]

theorem isBlockA_eq_not_isSectionA (a : Activity) : isBlockA a = !isSectionA a := by
  cases h : a.type <;> simp [isBlockA, isSectionA, h]

theorem organizeLoop_append_acc (l : List Activity) :
    ∀ (acc : List Module) (cur : Option Module),
      organizeLoop l acc cur = acc ++ organizeLoop l [] cur := by
  induction l with
  | nil => intro acc cur; cases cur <;> simp [organizeLoop]
  | cons a rest ih =>
    intro acc cur
    cases ht : a.type with
    | block =>
      cases cur with
      | none => simp only [organizeLoop, ht]; rw [ih]
      | some m => simp only [organizeLoop, ht]; rw [ih]
    | «section» =>
      cases cur with
      | none => simp only [organizeLoop, ht]; rw [ih]
      | some m =>
        simp only [organizeLoop, ht]
        rw [ih (acc ++ [m]), ih ([] ++ [m])]
        simp

set_option maxHeartbeats 800000 in
theorem organizeLoop_spec (l : List Activity) :
    ∀ cur : Option Module,
      organizeLoop l [] cur =
        cur.elim (organizeSpec l) (fun m =>
          { m with
              pages := m.pages ++ (l.takeWhile (fun b => !isSectionA b)).map toPageRec } ::
            organizeSpec (l.dropWhile (fun b => !isSectionA b))) := by
  induction l with
  | nil =>
    intro cur
    cases cur with
    | none => simp [organizeLoop, organizeSpec_nil]
    | some m => simp [organizeLoop, organizeSpec_nil]
  | cons a rest ih =>
    intro cur
    cases ht : a.type with
    | block =>
      have hsec : isSectionA a = false := by simp [isSectionA, ht]
      cases cur with
      | none =>
        simp only [organizeLoop, ht, ih, Option.elim, organizeSpec_cons, hsec]
        simp
      | some m =>
        simp only [organizeLoop, ht, ih, Option.elim]
        rw [List.takeWhile_cons, List.dropWhile_cons]
        simp [hsec]
    | «section» =>
      have hsec : isSectionA a = true := by simp [isSectionA, ht]
      cases cur with
      | none =>
        simp only [organizeLoop, ht, ih, Option.elim, organizeSpec_cons, hsec]
        simp
      | some m =>
        simp only [organizeLoop, ht]
        rw [organizeLoop_append_acc rest ([] ++ [m]) (some ⟨a.name, a.id, []⟩)]
        simp only [List.nil_append, ih, Option.elim]
        rw [List.takeWhile_cons, List.dropWhile_cons]
        simp only [hsec, Bool.not_true, if_neg (by simp : ¬(false = true))]
        rw [organizeSpec_cons]
        simp [hsec]

theorem organize_activities_eq_organizeSpec (l : List Activity) :
    organize_activities l = organizeSpec l := by
  have h := organizeLoop_spec l none
  simpa [organize_activities, Option.elim] using h

/-- Claim C3: `organize_activities` is the single in-order sweep in which each
Section activity opens a new Module (title and id from the Section, pages
empty), every subsequent Block up to the next Section is appended as a Page of
that Module, and Blocks before the first Section appear in no Module — i.e.
the loop equals the spec-side grouping function `organizeSpec`. -/
theorem C3_positional_grouping (l : List Activity) :
    organize_activities l = organizeSpec l :=
  organize_activities_eq_organizeSpec l

/-! ### Lemmas for claim C9 -/

theorem filter_isSectionA_dropWhile (l : List Activity) :
    (l.dropWhile (fun b => !isSectionA b)).filter isSectionA = l.filter isSectionA := by
  induction l with
  | nil => rfl
  | cons a rest ih =>
    by_cases h : isSectionA a = true
    · rw [List.dropWhile_cons, if_neg (by simp [h])]
    · rw [List.dropWhile_cons, if_pos (by simp [h]), ih, List.filter_cons,
        if_neg (by simp [h])]

theorem dropWhile_idem {α : Type} (p : α → Bool) (l : List α) :
    List.dropWhile p (List.dropWhile p l) = List.dropWhile p l := by
  induction l with
  | nil => rfl
  | cons a rest ih =>
    rw [List.dropWhile_cons]
    by_cases h : p a = true
    · rw [if_pos h, ih]
    · rw [if_neg h, List.dropWhile_cons, if_neg h]

theorem organizeSpec_map_title (l : List Activity) :
    (organizeSpec l).map (fun m => (m.title, m.id)) =
      (l.filter isSectionA).map (fun a => (a.name, a.id)) := by
  induction l using organizeSpec.induct with
  | case1 => rw [organizeSpec_nil]; rfl
  | case2 a rest h ih =>
    rw [organizeSpec_cons, if_pos h, List.filter_cons, if_pos h]
    simp only [List.map_cons, List.cons.injEq, true_and]
    rw [ih, filter_isSectionA_dropWhile]
  | case3 a rest h ih =>
    rw [organizeSpec_cons, if_neg h, List.filter_cons,
      if_neg (by simpa using h), ih]

theorem filter_isBlockA_takeWhile (l : List Activity) :
    (l.takeWhile (fun b => !isSectionA b)).filter isBlockA =
      l.takeWhile (fun b => !isSectionA b) :=
  List.filter_eq_self.mpr (fun a ha => by
    have h := List.mem_takeWhile_imp ha
    rw [isBlockA_eq_not_isSectionA]
    exact h)

theorem organizeSpec_join_pages (l : List Activity) :
    ((organizeSpec l).map Module.pages).flatten =
      ((l.dropWhile (fun b => !isSectionA b)).filter isBlockA).map toPageRec := by
  induction l using organizeSpec.induct with
  | case1 => rw [organizeSpec_nil]; rfl
  | case2 a rest h ih =>
    rw [organizeSpec_cons, if_pos h]
    simp only [List.map_cons, List.flatten_cons]
    rw [ih, dropWhile_idem, List.dropWhile_cons, if_neg (by simp [h]),
      List.filter_cons]
    have hb : isBlockA a = false := by rw [isBlockA_eq_not_isSectionA, h]; rfl
    rw [if_neg (by simp [hb])]
    conv_rhs => rw [← List.takeWhile_append_dropWhile (fun b => !isSectionA b) rest]
    rw [List.filter_append, filter_isBlockA_takeWhile, List.map_append]
  | case3 a rest h ih =>
    rw [organizeSpec_cons, if_neg h, ih, List.dropWhile_cons,
      if_pos (by simpa using h)]

theorem organizeLoop_append_section (s : Activity) (hs : s.type = ActType.section) :
    ∀ (l : List Activity) (acc : List Module) (cur : Option Module),
      organizeLoop (l ++ [s]) acc cur =
        organizeLoop l acc cur ++ [⟨s.name, s.id, []⟩] := by
  intro l
  induction l with
  | nil =>
    intro acc cur
    cases cur with
    | none => simp [organizeLoop, hs]
    | some m => simp [organizeLoop, hs]
  | cons a rest ih =>
    intro acc cur
    cases ht : a.type with
    | block =>
      cases cur with
      | none => simp only [List.cons_append, organizeLoop, ht]; exact ih _ _
      | some m => simp only [List.cons_append, organizeLoop, ht]; exact ih _ _
    | «section» =>
      cases cur with
      | none => simp only [List.cons_append, organizeLoop, ht]; exact ih _ _
      | some m => simp only [List.cons_append, organizeLoop, ht]; exact ih _ _

theorem toPageRec_injective : Function.Injective toPageRec := by
  intro x y h
  have h2 := congrArg PageRec.toActivity h
  simpa [toPageRec] using h2

/-- Positional characterization of the grouping: for every occurrence of a
Section in the input, the module at the corresponding index (the number of
Sections before it) carries exactly the Blocks up to the next Section.  In
particular a Section immediately followed by another Section (or by the end of
the list) yields a module with an empty pages list. -/
theorem organizeSpec_section_at :
    ∀ (n : Nat) (l₁ : List Activity), l₁.length ≤ n → ∀ (s : Activity) (l₂ : List Activity),
      s.type = ActType.section →
      (organizeSpec (l₁ ++ s :: l₂))[(l₁.filter isSectionA).length]? =
        some ⟨s.name, s.id, (l₂.takeWhile (fun b => !isSectionA b)).map toPageRec⟩ := by
  intro n
  induction n with
  | zero =>
    intro l₁ hlen s l₂ hs
    cases l₁ with
    | nil =>
      simp only [List.nil_append, List.filter_nil, List.length_nil]
      rw [organizeSpec_cons, if_pos (by simp [isSectionA, hs])]
      exact List.getElem?_cons_zero
    | cons a t => simp at hlen
  | succ n ih =>
    intro l₁ hlen s l₂ hs
    cases l₁ with
    | nil =>
      simp only [List.nil_append, List.filter_nil, List.length_nil]
      rw [organizeSpec_cons, if_pos (by simp [isSectionA, hs])]
      exact List.getElem?_cons_zero
    | cons a l₁ =>
      have hlen2 : l₁.length ≤ n := by
        simp only [List.length_cons] at hlen
        omega
      by_cases ha : isSectionA a = true
      · rw [List.cons_append, organizeSpec_cons, if_pos ha, List.filter_cons, if_pos ha]
        simp only [List.length_cons, List.getElem?_cons_succ]
        rw [List.dropWhile_append]
        by_cases hemp : ((l₁.dropWhile (fun b => !isSectionA b)).isEmpty : Bool) = true
        · rw [if_pos hemp]
          have hnil : l₁.dropWhile (fun b => !isSectionA b) = [] := by
            cases hd : l₁.dropWhile (fun b => !isSectionA b) with
            | nil => rfl
            | cons c t => rw [hd] at hemp; simp at hemp
          have hfil : l₁.filter isSectionA = [] := by
            rw [← filter_isSectionA_dropWhile l₁, hnil]
            rfl
          rw [List.dropWhile_cons, if_neg (by simp [isSectionA, hs]), hfil]
          simp only [List.length_nil]
          rw [organizeSpec_cons, if_pos (by simp [isSectionA, hs])]
          exact List.getElem?_cons_zero
        · rw [if_neg hemp, ← filter_isSectionA_dropWhile l₁]
          exact ih (l₁.dropWhile (fun b => !isSectionA b))
            (le_trans (List.dropWhile_sublist _).length_le hlen2) s l₂ hs
      · rw [List.cons_append, organizeSpec_cons, if_neg ha, List.filter_cons, if_neg ha]
        exact ih l₁ hlen2 s l₂ hs

/-- Claim C9: the Module list has exactly one Module per Section activity, in
input order (titles/ids match the Sections); the concatenation of all Modules'
pages is exactly the list of Blocks after the first Section, and every Block
occurrence is used at most once across all Modules; and for every occurrence
of a Section in the input, the Module at the corresponding position carries
exactly the Blocks up to the next Section — so a Section with no Block before
the next Section (or before the end of the list) still yields a Module, with
an empty pages list. -/
theorem C9_module_per_section_invariants (l : List Activity) :
    ((organize_activities l).map (fun m => (m.title, m.id)) =
        (l.filter isSectionA).map (fun a => (a.name, a.id))) ∧
      (((organize_activities l).map Module.pages).flatten =
        ((l.dropWhile (fun b => !isSectionA b)).filter isBlockA).map toPageRec) ∧
      (∀ a : Activity,
        ((organize_activities l).map (fun m => m.pages.count (toPageRec a))).sum ≤
          l.count a) ∧
      (∀ (l₁ : List Activity) (s : Activity) (l₂ : List Activity),
        l = l₁ ++ s :: l₂ → s.type = ActType.section →
        (organize_activities l)[(l₁.filter isSectionA).length]? =
          some ⟨s.name, s.id, (l₂.takeWhile (fun b => !isSectionA b)).map toPageRec⟩) := by
  refine ⟨?_, ?_, ?_, ?_⟩
  · rw [organize_activities_eq_organizeSpec]
    exact organizeSpec_map_title l
  · rw [organize_activities_eq_organizeSpec]
    exact organizeSpec_join_pages l
  · intro a
    have hjoin :
        ((organize_activities l).map Module.pages).flatten =
          ((l.dropWhile (fun b => !isSectionA b)).filter isBlockA).map toPageRec := by
      rw [organize_activities_eq_organizeSpec]
      exact organizeSpec_join_pages l
    have hsum :
        ((organize_activities l).map (fun m => m.pages.count (toPageRec a))).sum =
          List.count (toPageRec a) ((organize_activities l).map Module.pages).flatten := by
      rw [List.count_flatten, List.map_map]
      rfl
    rw [hsum, hjoin, List.count_map_of_injective _ toPageRec toPageRec_injective]
    calc List.count a ((l.dropWhile (fun b => !isSectionA b)).filter isBlockA)
        ≤ List.count a (l.dropWhile (fun b => !isSectionA b)) :=
          (List.filter_sublist _).count_le a
      _ ≤ List.count a l := (List.dropWhile_sublist _).count_le a
  · intro l₁ s l₂ hdecomp hs
    subst hdecomp
    rw [organize_activities_eq_organizeSpec]
    exact organizeSpec_section_at l₁.length l₁ (Nat.le_refl _) s l₂ hs

/-- Witness for C9: in `[Section "Unit 1", Section "Unit 2", Block "Intro"]`
the first Section has no Block before the next Section, and its Module (at
position 0) has an empty pages list. -/
theorem C9_witness :
    (organize_activities
        [⟨pystr "s1", pystr "f1", pystr "Unit 1", [], ActType.section⟩,
          ⟨pystr "s2", pystr "f2", pystr "Unit 2", [], ActType.section⟩,
          ⟨pystr "b1", pystr "f3", pystr "Intro", [], ActType.block⟩])[0]? =
      some ⟨pystr "Unit 1", pystr "s1", []⟩ :=
  (C9_module_per_section_invariants
      [⟨pystr "s1", pystr "f1", pystr "Unit 1", [], ActType.section⟩,
        ⟨pystr "s2", pystr "f2", pystr "Unit 2", [], ActType.section⟩,
        ⟨pystr "b1", pystr "f3", pystr "Intro", [], ActType.block⟩]).2.2.2
    [] ⟨pystr "s1", pystr "f1", pystr "Unit 1", [], ActType.section⟩
    [⟨pystr "s2", pystr "f2", pystr "Unit 2", [], ActType.section⟩,
      ⟨pystr "b1", pystr "f3", pystr "Intro", [], ActType.block⟩] rfl rfl

/-! ### `extract_wiki_metadata` (claim C8)

The three `re.search` calls use patterns of the shape `open(.*?)close` with the
default (non-DOTALL) semantics: the regular expression matches at the leftmost
position where the literal `open` occurs followed by a newline-free capture up
to the literal `close`; the lazy group takes the shortest such capture. -/

/-- The lazy capture attempt at one position: the shortest newline-free prefix
of `s` that is followed by the literal `cls`. -/
def captureAt (cls : PyStr) : PyStr → Option PyStr
  | [] => none
  | c :: rest =>
    if cls.isPrefixOf (c :: rest) then some []
    else if c = 10 then none
    else (captureAt cls rest).map (fun t => c :: t)

/-- `re.search` for a pattern `open(.*?)close`: try every start position from
the left; at a position where `open` matches, succeed with the lazy capture if
one exists, otherwise keep scanning. -/
def scanCapture (opn cls : PyStr) : PyStr → Option PyStr
  | [] => none
  | c :: rest =>
    if opn.isPrefixOf (c :: rest) then
      match captureAt cls (List.drop opn.length (c :: rest)) with
      | some r => some r
      | none => scanCapture opn cls rest
    else scanCapture opn cls rest

def scanTitle (html : PyStr) : Option PyStr :=
  scanCapture (pystr "<title>") (pystr "</title>") html

def scanIdentifier (html : PyStr) : Option PyStr :=
  scanCapture (pystr "<meta name=\"identifier\" content=\"") (pystr "\"") html

def scanWorkflow (html : PyStr) : Option PyStr :=
  scanCapture (pystr "<meta name=\"workflow_state\" content=\"") (pystr "\"") html

/-- Metadata extracted from one additional HTML document. -/
structure WikiMeta where
  title : PyStr
  identifier : Ident
  workflow_state : PyStr
deriving DecidableEq

/-- `extract_wiki_metadata`: scan the raw HTML for the three markers and
substitute defaults for the missing ones.  The fresh-identifier default is the
only branch that calls `uuid.uuid4()`, hence the counter is consumed only
there. -/
def extract_wiki_metadata (html : PyStr) (ctr : Nat) : WikiMeta × Nat :=
  let title := (scanTitle html).getD (pystr "Untitled Page")
  let idCtr : Ident × Nat :=
    match scanIdentifier html with
    | some s => (Ident.user s, ctr)
    | none => (Ident.gen ctr, ctr + 1)
  let workflow_state := (scanWorkflow html).getD (pystr "active")
  (⟨title, idCtr.1, workflow_state⟩, idCtr.2)

/-- Claim C8: the metadata extractor substitutes the literal defaults
`"Untitled Page"`, a freshly generated identifier, and `"active"` exactly for
the markers its scanner does not find, and returns found markers verbatim. -/
theorem C8_wiki_metadata_defaults (html : PyStr) (ctr : Nat) :
    ((scanTitle html = none →
        (extract_wiki_metadata html ctr).1.title = pystr "Untitled Page") ∧
      (∀ t, scanTitle html = some t → (extract_wiki_metadata html ctr).1.title = t)) ∧
    ((scanIdentifier html = none →
        (extract_wiki_metadata html ctr).1.identifier = Ident.gen ctr ∧
          (extract_wiki_metadata html ctr).2 = ctr + 1) ∧
      (∀ s, scanIdentifier html = some s →
        (extract_wiki_metadata html ctr).1.identifier = Ident.user s ∧
          (extract_wiki_metadata html ctr).2 = ctr)) ∧
    ((scanWorkflow html = none →
        (extract_wiki_metadata html ctr).1.workflow_state = pystr "active") ∧
      (∀ w, scanWorkflow html = some w →
        (extract_wiki_metadata html ctr).1.workflow_state = w)) := by
  refine ⟨⟨?_, ?_⟩, ⟨?_, ?_⟩, ⟨?_, ?_⟩⟩ <;>
    first
      | (intro h; cases hid : scanIdentifier html <;>
          simp [extract_wiki_metadata, h, hid])
      | (intro t h; cases hid : scanIdentifier html <;>
          simp [extract_wiki_metadata, h, hid])

/-- Witness for C8: on a document with none of the three markers, all three
defaults are substituted and the counter advances by one. -/
theorem C8_witness :
    (extract_wiki_metadata (pystr "<p>hi</p>") 5).1.title = pystr "Untitled Page" ∧
      (extract_wiki_metadata (pystr "<p>hi</p>") 5).1.identifier = Ident.gen 5 ∧
      (extract_wiki_metadata (pystr "<p>hi</p>") 5).1.workflow_state = pystr "active" ∧
      (extract_wiki_metadata (pystr "<p>hi</p>") 5).2 = 6 :=
  ⟨(C8_wiki_metadata_defaults (pystr "<p>hi</p>") 5).1.1 (by decide),
    ((C8_wiki_metadata_defaults (pystr "<p>hi</p>") 5).2.1.1 (by decide)).1,
    (C8_wiki_metadata_defaults (pystr "<p>hi</p>") 5).2.2.1 (by decide),
    ((C8_wiki_metadata_defaults (pystr "<p>hi</p>") 5).2.1.1 (by decide)).2⟩

/-! ### The IMSCC package pipeline

`create_imscc_package` and its helpers, with the `uuid.uuid4()` counter
threaded through in the exact call order of the Python code: additional-page
metadata extraction, the per-page HTML rendering loop, `create_imsmanifest`
(organization id, then per module the module id and per page the resource id
and the item id, then the manifest id), `create_course_settings` (course id,
then `create_module_meta` with one id per module and per item). -/

/-- The rendered wiki HTML document of `create_html_page`, by its elements:
`<title>`, the three `<meta>` markers, and the iframe `src`. -/
structure HtmlDoc where
  title : PyStr
  identifier : Ident
  editing_roles : PyStr
  workflow_state : PyStr
  iframe_src : PyStr
deriving DecidableEq

/-- `create_html_page`: generate a fresh page identifier, slugify the title,
and render the iframe page.  Returns (html, safe_title, identifier) plus the
advanced uuid counter. -/
def create_html_page (lesson_id lesson_title base_url url_format : PyStr) (ctr : Nat) :
    HtmlDoc × PyStr × Ident × Nat :=
  let identifier := Ident.gen ctr
  let safe_title := create_safe_filename lesson_title
  (⟨lesson_title, identifier, pystr "teachers", pystr "active",
      base_url ++ pystr "/index.html#/" ++ url_format ++ pystr "/" ++ lesson_id⟩,
    safe_title, identifier, ctr + 1)

/-- One additional (operator-supplied) HTML page after metadata extraction. -/
structure AddPage where
  title : PyStr
  identifier : Ident
  workflow_state : PyStr
  filename : PyStr
  content : PyStr
deriving DecidableEq

/-- `process_additional_html`: extract metadata from each uploaded file in
order. -/
def process_additional_html : List (PyStr × PyStr) → Nat → List AddPage × Nat
  | [], ctr => ([], ctr)
  | (fname, content) :: rest, ctr =>
    let mc := extract_wiki_metadata content ctr
    let pc := process_additional_html rest mc.2
    (⟨mc.1.title, mc.1.identifier, mc.1.workflow_state, fname, content⟩ :: pc.1, pc.2)

/-- A `<resource>` element of `imsmanifest.xml`. -/
structure Resource where
  identifier : Ident
  href : PyStr
deriving DecidableEq

/-- A page-level `<item>` of the manifest organization (carries an
`identifierref`). -/
structure PageItem where
  identifier : Ident
  identifierref : Ident
  title : PyStr
deriving DecidableEq

/-- A module-level `<item>` of the manifest organization. -/
structure ModuleItem where
  identifier : Ident
  title : PyStr
  items : List PageItem
deriving DecidableEq

/-- `imsmanifest.xml` by its claim-relevant elements.  `learning_modules` are
the children of the constant `<item identifier="LearningModules">` root item
of the single organization. -/
structure Manifest where
  manifest_identifier : Ident
  course_title : PyStr
  org_identifier : Ident
  learning_modules : List ModuleItem
  resources : List Resource
deriving DecidableEq

/-- `wiki_content/{slug}.html`. -/
def wikiHref (slug : PyStr) : PyStr := pystr "wiki_content/" ++ slug ++ pystr ".html"

/-- The per-page loop of `create_imsmanifest`: for each page generate the
`page_identifier` (stored back into the page dict) and the item identifier,
emit the `<item>` and its `<resource>`. -/
def manifestPages : List PageRec → Nat →
    List PageItem × List Resource × List PageRec × Nat
  | [], ctr => ([], [], [], ctr)
  | p :: ps, ctr =>
    let page_identifier := Ident.gen ctr
    let item_identifier := Ident.gen (ctr + 1)
    let rest := manifestPages ps (ctr + 2)
    (⟨item_identifier, page_identifier, p.name⟩ :: rest.1,
      ⟨page_identifier, wikiHref (create_safe_filename p.name)⟩ :: rest.2.1,
      { p with identifier := some page_identifier } :: rest.2.2.1,
      rest.2.2.2)

/-- The per-module loop of `create_imsmanifest`. -/
def manifestModules : List Module → Nat →
    List ModuleItem × List Resource × List Module × Nat
  | [], ctr => ([], [], [], ctr)
  | m :: ms, ctr =>
    let module_id := Ident.gen ctr
    let pr := manifestPages m.pages (ctr + 1)
    let rest := manifestModules ms pr.2.2.2
    (⟨module_id, m.title, pr.1⟩ :: rest.1,
      pr.2.1 ++ rest.2.1,
      ⟨m.title, m.id, pr.2.2.1⟩ :: rest.2.2.1,
      rest.2.2.2)

/-- `create_imsmanifest`: organization identifier, module/page loop, one
`<resource>` per additional page, manifest identifier.  Returns the manifest
and the modules with the freshly assigned page identifiers (the Python code
mutates the page dicts in place). -/
def create_imsmanifest (course_title : PyStr) (modules : List Module)
    (additional_pages : List AddPage) (ctr : Nat) : Manifest × List Module × Nat :=
  let org_identifier := Ident.gen ctr
  let mm := manifestModules modules (ctr + 1)
  let addRes := additional_pages.map
    (fun p => Resource.mk p.identifier (pystr "wiki_content/" ++ p.filename))
  let manifest_identifier := Ident.gen mm.2.2.2
  (⟨manifest_identifier, course_title, org_identifier, mm.1, mm.2.1 ++ addRes⟩,
    mm.2.2.1, mm.2.2.2 + 1)

/-- An `<item>` of `module_meta.xml`. -/
structure MetaItem where
  identifier : Ident
  content_type : PyStr
  workflow_state : PyStr
  title : PyStr
  identifierref : Ident
  position : Nat
deriving DecidableEq

/-- A `<module>` of `module_meta.xml`. -/
structure MetaModule where
  identifier : Ident
  title : PyStr
  workflow_state : PyStr
  position : Nat
  items : List MetaItem
deriving DecidableEq

/-- The per-item loop of `create_module_meta` for Rise pages: the item id is
always generated; the `identifierref` reuses the identifier stored by
`create_imsmanifest`, falling back to a fresh one only if it is absent. -/
def metaItems : List PageRec → Nat → Nat → List MetaItem × Nat
  | [], _, ctr => ([], ctr)
  | p :: ps, j, ctr =>
    let item_id := Ident.gen ctr
    let refCtr : Ident × Nat :=
      match p.identifier with
      | some pid => (pid, ctr + 1)
      | none => (Ident.gen (ctr + 1), ctr + 2)
    let rest := metaItems ps (j + 1) refCtr.2
    (⟨item_id, pystr "WikiPage", pystr "active", p.name, refCtr.1, j + 1⟩ :: rest.1,
      rest.2)

/-- The per-module loop of `create_module_meta` for Rise modules. -/
def metaModules : List Module → Nat → Nat → List MetaModule × Nat
  | [], _, ctr => ([], ctr)
  | m :: ms, i, ctr =>
    let module_id := Ident.gen ctr
    let its := metaItems m.pages 0 (ctr + 1)
    let rest := metaModules ms (i + 1) its.2
    (⟨module_id, m.title, pystr "active", i + 1, its.1⟩ :: rest.1, rest.2)

/-- The item loop of the trailing "Additional Content" module. -/
def metaAdditionalItems : List AddPage → Nat → Nat → List MetaItem × Nat
  | [], _, ctr => ([], ctr)
  | p :: ps, j, ctr =>
    let item_id := Ident.gen ctr
    let rest := metaAdditionalItems ps (j + 1) (ctr + 1)
    (⟨item_id, pystr "WikiPage", p.workflow_state, p.title, p.identifier, j + 1⟩ :: rest.1,
      rest.2)

/-- `create_module_meta`: one `<module>` per Rise module, plus — only when
additional pages exist — one trailing "Additional Content" module at position
`len(modules) + 1`. -/
def create_module_meta (modules : List Module) (additional_pages : List AddPage)
    (ctr : Nat) : List MetaModule × Nat :=
  let mm := metaModules modules 0 ctr
  match additional_pages with
  | [] => mm
  | _ :: _ =>
    let additional_module_id := Ident.gen mm.2
    let its := metaAdditionalItems additional_pages 0 (mm.2 + 1)
    (mm.1 ++ [⟨additional_module_id, pystr "Additional Content", pystr "active",
        modules.length + 1, its.1⟩], its.2)

/-- `create_course_settings`: the course identifier of `course_settings.xml`
followed by `module_meta.xml`; the remaining five files are constant
boilerplate. -/
def create_course_settings (modules : List Module) (additional_pages : List AddPage)
    (ctr : Nat) : Ident × List MetaModule × Nat :=
  let course_identifier := Ident.gen ctr
  let meta := create_module_meta modules additional_pages (ctr + 1)
  (course_identifier, meta.1, meta.2)

/-- Content written into `wiki_content/`: a rendered iframe page or a raw
additional HTML file. -/
inductive FileContent where
  | page : HtmlDoc → FileContent
  | raw : PyStr → FileContent
deriving DecidableEq

/-- The HTML-rendering loop of `create_imscc_package` over one module's pages:
each page is rendered and written to `wiki_content/{slug}.html`, and its
identifier stored into the page dict. -/
def renderPages (base_url url_format : PyStr) :
    List PageRec → Nat → List (PyStr × FileContent) × List PageRec × Nat
  | [], ctr => ([], [], ctr)
  | p :: ps, ctr =>
    let hp := create_html_page p.id p.name base_url url_format ctr
    let rest := renderPages base_url url_format ps hp.2.2.2
    ((wikiHref hp.2.1, FileContent.page hp.1) :: rest.1,
      { p with identifier := some hp.2.2.1 } :: rest.2.1,
      rest.2.2)

/-- The HTML-rendering loop over all modules. -/
def renderModules (base_url url_format : PyStr) :
    List Module → Nat → List (PyStr × FileContent) × List Module × Nat
  | [], ctr => ([], [], ctr)
  | m :: ms, ctr =>
    let pr := renderPages base_url url_format m.pages ctr
    let rest := renderModules base_url url_format ms pr.2.2
    (pr.1 ++ rest.1, ⟨m.title, m.id, pr.2.1⟩ :: rest.2.1, rest.2.2)

/-- One generated IMSCC package: the `wiki_content/` writes in write order,
the manifest, `module_meta.xml`, and the processed additional pages. -/
structure Package where
  writes : List (PyStr × FileContent)
  manifest : Manifest
  module_meta : List MetaModule
  course_identifier : Ident
  additional_pages : List AddPage
  module_count : Nat
  additional_count : Nat
deriving DecidableEq

/-- `create_imscc_package`: organize, process additional files, render and
write the module pages, write the additional files, compose the manifest
(which reassigns the page identifiers), then the course settings with
`module_meta.xml`. -/
def create_imscc_package (activities : List Activity)
    (course_title base_url url_format : PyStr)
    (additional_html_files : List (PyStr × PyStr)) : Package :=
  let modules := organize_activities activities
  let ap := process_additional_html additional_html_files 0
  let rm := renderModules base_url url_format modules ap.2
  let addWrites := ap.1.map
    (fun p => (pystr "wiki_content/" ++ p.filename, FileContent.raw p.content))
  let man := create_imsmanifest course_title rm.2.1 ap.1 rm.2.2
  let cs := create_course_settings man.2.1 ap.1 man.2.2
  ⟨rm.1 ++ addWrites, man.1, cs.2.1, cs.1, ap.1, modules.length, ap.1.length⟩

/-- The number of `<item>` elements in the manifest organization: the constant
`LearningModules` root item, one per module, one per page. -/
def manifestItemCount (m : Manifest) : Nat :=
  1 + (m.learning_modules.map (fun mi => 1 + mi.items.length)).sum

/-- All `identifierref` values on `<item>` elements of the manifest. -/
def manifestRefs (m : Manifest) : List Ident :=
  (m.learning_modules.map (fun mi => mi.items.map PageItem.identifierref)).flatten

/-- All identifiers declared on `<resource>` elements of the manifest. -/
def resourceIds (m : Manifest) : List Ident := m.resources.map Resource.identifier

/-- All `identifierref` values on `<item>` elements of `module_meta.xml`. -/
def metaRefs (mods : List MetaModule) : List Ident :=
  (mods.map (fun mm => mm.items.map MetaItem.identifierref)).flatten

/-! ### Claim C1: round-trip identifier stability -/

/-- A minimal run: one Section followed by one Block. -/
def c1Activities : List Activity :=
  [⟨pystr "s1", pystr "http://x/s1", pystr "Unit 1", [], ActType.section⟩,
    ⟨pystr "b1", pystr "http://x/b1", pystr "Lesson 1", [], ActType.block⟩]

def c1Pkg : Package :=
  create_imscc_package c1Activities (pystr "Course") (pystr "http://base") (pystr "blocks") []

/-- Claim C1 fails on the code: the rendered page embeds the identifier
generated by `create_html_page` (the first uuid of the run), but
`create_imsmanifest` generates a fresh identifier for the same page and
overwrites the stored one, so the `identifierref` in `imsmanifest.xml` and
`module_meta.xml` (which agree with each other) differs from the `<meta
name="identifier">` value in the page's HTML. -/
theorem C1_roundtrip_identifier_mismatch :
    c1Pkg.writes =
        [(wikiHref (pystr "lesson-1"),
          FileContent.page ⟨pystr "Lesson 1", Ident.gen 0, pystr "teachers",
            pystr "active", pystr "http://base/index.html#/blocks/b1"⟩)] ∧
      manifestRefs c1Pkg.manifest = [Ident.gen 3] ∧
      metaRefs c1Pkg.module_meta = [Ident.gen 3] ∧
      Ident.gen 0 ≠ Ident.gen 3 := by decide

/-! ### Claim C7: the empty-input scenario -/

/-- A node whose name has no `/blocks` or `/section` suffix: it is not
retained, so the conversion runs on zero qualifying activities. -/
def c7Node : ActivityNode := ⟨pystr "http://x/a", pystr "t", some (pystr "Plain lesson"), none⟩

/-- Claim C7, counterexample: even on an empty input the manifest organization
contains the constant `<item identifier="LearningModules">` root element, so
the number of `<item>` entries is 1, not 0. -/
theorem C7_counterexample :
    manifestItemCount
        (create_imscc_package (extract_activities [c7Node]) (pystr "T") (pystr "http://b")
          (pystr "blocks") []).manifest ≠ 0 := by decide

/-- Claim C7 (amended): an input with zero qualifying activities and no
additional HTML pages converts without failure (all pipeline functions are
total) into a manifest whose organization holds only the constant
`LearningModules` root item — zero module or page `<item>` children — and zero
`<resource>` entries. -/
theorem C7_empty_input_amended (nodes : List ActivityNode) (ct bu uf : PyStr)
    (h : extract_activities nodes = []) :
    ((create_imscc_package (extract_activities nodes) ct bu uf []).manifest.learning_modules
        = []) ∧
      ((create_imscc_package (extract_activities nodes) ct bu uf []).manifest.resources = []) ∧
      manifestItemCount
          (create_imscc_package (extract_activities nodes) ct bu uf []).manifest = 1 := by
  rw [h]
  exact ⟨rfl, rfl, rfl⟩

/-- Witness for C7 at a concrete non-qualifying input. -/
theorem C7_witness :
    ((create_imscc_package (extract_activities [c7Node]) (pystr "T") (pystr "http://b")
          (pystr "blocks") []).manifest.learning_modules = []) ∧
      ((create_imscc_package (extract_activities [c7Node]) (pystr "T") (pystr "http://b")
          (pystr "blocks") []).manifest.resources = []) ∧
      manifestItemCount
          (create_imscc_package (extract_activities [c7Node]) (pystr "T") (pystr "http://b")
            (pystr "blocks") []).manifest = 1 :=
  C7_empty_input_amended [c7Node] (pystr "T") (pystr "http://b") (pystr "blocks") (by decide)

/-! ### Claim C6: cross-reference closure -/

/-- Two additional HTML files declaring the same identifier `X`. -/
def c6Pkg : Package :=
  create_imscc_package [] (pystr "T") (pystr "http://b") (pystr "blocks")
    [(pystr "a.html", pystr "<meta name=\"identifier\" content=\"X\">"),
      (pystr "b.html", pystr "<meta name=\"identifier\" content=\"X\">")]

/-- Claim C6, counterexample: when two additional HTML pages carry the same
identifier, the manifest declares two `<resource>` elements with that same
identifier, so the `identifierref` used for them in `module_meta.xml` resolves
to two resources, not exactly one. -/
theorem C6_counterexample :
    ¬ (resourceIds c6Pkg.manifest).Nodup ∧
      Ident.user (pystr "X") ∈ metaRefs c6Pkg.module_meta ∧
      (resourceIds c6Pkg.manifest).count (Ident.user (pystr "X")) = 2 := by decide

/-! ### Freshness bookkeeping for the uuid counter -/

theorem extract_wiki_metadata_ident (html : PyStr) (ctr : Nat) :
    ((∃ s, (extract_wiki_metadata html ctr).1.identifier = Ident.user s) ∧
        (extract_wiki_metadata html ctr).2 = ctr) ∨
      ((extract_wiki_metadata html ctr).1.identifier = Ident.gen ctr ∧
        (extract_wiki_metadata html ctr).2 = ctr + 1) := by
  cases h : scanIdentifier html with
  | none => right; simp [extract_wiki_metadata, h]
  | some s => left; exact ⟨⟨s, by simp [extract_wiki_metadata, h]⟩, by simp [extract_wiki_metadata, h]⟩

theorem process_additional_html_le (files : List (PyStr × PyStr)) :
    ∀ ctr : Nat, ctr ≤ (process_additional_html files ctr).2 := by
  induction files with
  | nil => intro ctr; exact Nat.le_refl _
  | cons f rest ih =>
    intro ctr
    rcases f with ⟨fname, content⟩
    simp only [process_additional_html]
    rcases extract_wiki_metadata_ident content ctr with ⟨_, h2⟩ | ⟨_, h2⟩
    · exact le_trans (le_of_eq h2.symm) (ih _)
    · exact le_trans (by omega) (le_trans (le_of_eq h2.symm) (ih _))

theorem process_additional_html_idents (files : List (PyStr × PyStr)) :
    ∀ ctr : Nat, ∀ p ∈ (process_additional_html files ctr).1,
      (∃ s, p.identifier = Ident.user s) ∨
        ∃ k, ctr ≤ k ∧ k < (process_additional_html files ctr).2 ∧
          p.identifier = Ident.gen k := by
  induction files with
  | nil => intro ctr p hp; simp [process_additional_html] at hp
  | cons f rest ih =>
    intro ctr p hp
    rcases f with ⟨fname, content⟩
    simp only [process_additional_html, List.mem_cons] at hp
    rcases hp with hp | hp
    · subst hp
      rcases extract_wiki_metadata_ident content ctr with ⟨⟨s, h1⟩, _⟩ | ⟨h1, h2⟩
      · exact Or.inl ⟨s, h1⟩
      · refine Or.inr ⟨ctr, Nat.le_refl _, ?_, h1⟩
        have := process_additional_html_le rest ((extract_wiki_metadata content ctr).2)
        simp only [process_additional_html]
        omega
    · rcases ih (extract_wiki_metadata content ctr).2 p hp with h | ⟨k, hk1, hk2, hk3⟩
      · exact Or.inl h
      · refine Or.inr ⟨k, ?_, ?_, hk3⟩
        · rcases extract_wiki_metadata_ident content ctr with ⟨_, h2⟩ | ⟨_, h2⟩ <;> omega
        · simp only [process_additional_html]
          exact hk2

theorem renderPages_le (bu uf : PyStr) (ps : List PageRec) :
    ∀ ctr : Nat, ctr ≤ (renderPages bu uf ps ctr).2.2 := by
  induction ps with
  | nil => intro ctr; exact Nat.le_refl _
  | cons p rest ih =>
    intro ctr
    simp only [renderPages, create_html_page]
    exact le_trans (Nat.le_succ _) (ih _)

theorem renderModules_le (bu uf : PyStr) (ms : List Module) :
    ∀ ctr : Nat, ctr ≤ (renderModules bu uf ms ctr).2.2 := by
  induction ms with
  | nil => intro ctr; exact Nat.le_refl _
  | cons m rest ih =>
    intro ctr
    simp only [renderModules]
    exact le_trans (renderPages_le bu uf m.pages ctr) (ih _)

/-! ### Structure of the manifest loops -/

theorem manifestPages_counter (ps : List PageRec) :
    ∀ ctr : Nat, (manifestPages ps ctr).2.2.2 = ctr + 2 * ps.length := by
  induction ps with
  | nil => intro ctr; simp [manifestPages]
  | cons p rest ih =>
    intro ctr
    simp only [manifestPages, ih, List.length_cons]
    omega

theorem manifestPages_refs_eq_resIds (ps : List PageRec) :
    ∀ ctr : Nat,
      (manifestPages ps ctr).1.map PageItem.identifierref =
        (manifestPages ps ctr).2.1.map Resource.identifier := by
  induction ps with
  | nil => intro ctr; rfl
  | cons p rest ih => intro ctr; simp only [manifestPages, List.map_cons, ih]

theorem manifestPages_page_idents (ps : List PageRec) :
    ∀ ctr : Nat,
      (manifestPages ps ctr).2.2.1.map PageRec.identifier =
        ((manifestPages ps ctr).2.1.map Resource.identifier).map some := by
  induction ps with
  | nil => intro ctr; rfl
  | cons p rest ih => intro ctr; simp only [manifestPages, List.map_cons, ih]

theorem manifestPages_resIds_bounds (ps : List PageRec) :
    ∀ ctr : Nat, ∀ x ∈ (manifestPages ps ctr).2.1.map Resource.identifier,
      ∃ k, ctr ≤ k ∧ k < (manifestPages ps ctr).2.2.2 ∧ x = Ident.gen k := by
  induction ps with
  | nil => intro ctr x hx; simp [manifestPages] at hx
  | cons p rest ih =>
    intro ctr x hx
    simp only [manifestPages, List.map_cons, List.mem_cons] at hx
    have hcnt := manifestPages_counter rest (ctr + 2)
    rcases hx with hx | hx
    · subst hx
      refine ⟨ctr, Nat.le_refl _, ?_, rfl⟩
      simp only [manifestPages, hcnt, List.length_cons]
      omega
    · rcases ih (ctr + 2) x hx with ⟨k, hk1, hk2, hk3⟩
      refine ⟨k, by omega, ?_, hk3⟩
      simp only [manifestPages, manifestPages_counter, List.length_cons]
      rw [manifestPages_counter] at hk2
      omega

theorem manifestPages_resIds_nodup (ps : List PageRec) :
    ∀ ctr : Nat, ((manifestPages ps ctr).2.1.map Resource.identifier).Nodup := by
  induction ps with
  | nil => intro ctr; simp [manifestPages]
  | cons p rest ih =>
    intro ctr
    simp only [manifestPages, List.map_cons, List.nodup_cons]
    refine ⟨?_, ih (ctr + 2)⟩
    intro hmem
    rcases manifestPages_resIds_bounds rest (ctr + 2) _ hmem with ⟨k, hk1, _, hk3⟩
    have : ctr = k := by
      have := Ident.gen.inj hk3
      omega
    omega

theorem manifestModules_le (ms : List Module) :
    ∀ ctr : Nat, ctr ≤ (manifestModules ms ctr).2.2.2 := by
  induction ms with
  | nil => intro ctr; exact Nat.le_refl _
  | cons m rest ih =>
    intro ctr
    simp only [manifestModules]
    have h1 := manifestPages_counter m.pages (ctr + 1)
    have h2 := ih (manifestPages m.pages (ctr + 1)).2.2.2
    omega

theorem manifestModules_refs_eq_resIds (ms : List Module) :
    ∀ ctr : Nat,
      ((manifestModules ms ctr).1.map (fun mi => mi.items.map PageItem.identifierref)).flatten =
        (manifestModules ms ctr).2.1.map Resource.identifier := by
  induction ms with
  | nil => intro ctr; rfl
  | cons m rest ih =>
    intro ctr
    simp only [manifestModules, List.map_cons, List.flatten_cons, List.map_append, ih,
      manifestPages_refs_eq_resIds]

theorem manifestModules_page_idents (ms : List Module) :
    ∀ ctr : Nat,
      (((manifestModules ms ctr).2.2.1.map Module.pages).flatten).map PageRec.identifier =
        ((manifestModules ms ctr).2.1.map Resource.identifier).map some := by
  induction ms with
  | nil => intro ctr; rfl
  | cons m rest ih =>
    intro ctr
    simp only [manifestModules, List.map_cons, List.flatten_cons, List.map_append, ih,
      manifestPages_page_idents]

theorem manifestModules_resIds_bounds (ms : List Module) :
    ∀ ctr : Nat, ∀ x ∈ (manifestModules ms ctr).2.1.map Resource.identifier,
      ∃ k, ctr ≤ k ∧ k < (manifestModules ms ctr).2.2.2 ∧ x = Ident.gen k := by
  induction ms with
  | nil => intro ctr x hx; simp [manifestModules] at hx
  | cons m rest ih =>
    intro ctr x hx
    simp only [manifestModules, List.map_append, List.mem_append] at hx
    have hple := manifestPages_counter m.pages (ctr + 1)
    have hmle := manifestModules_le rest (manifestPages m.pages (ctr + 1)).2.2.2
    rcases hx with hx | hx
    · rcases manifestPages_resIds_bounds m.pages (ctr + 1) x hx with ⟨k, hk1, hk2, hk3⟩
      refine ⟨k, by omega, ?_, hk3⟩
      simp only [manifestModules]
      omega
    · rcases ih (manifestPages m.pages (ctr + 1)).2.2.2 x hx with ⟨k, hk1, hk2, hk3⟩
      refine ⟨k, by omega, ?_, hk3⟩
      simp only [manifestModules]
      omega

theorem manifestModules_resIds_nodup (ms : List Module) :
    ∀ ctr : Nat, ((manifestModules ms ctr).2.1.map Resource.identifier).Nodup := by
  induction ms with
  | nil => intro ctr; simp [manifestModules]
  | cons m rest ih =>
    intro ctr
    simp only [manifestModules, List.map_append]
    refine List.Nodup.append (manifestPages_resIds_nodup m.pages (ctr + 1))
      (ih (manifestPages m.pages (ctr + 1)).2.2.2) ?_
    rw [List.disjoint_left]
    intro x hx1 hx2
    rcases manifestPages_resIds_bounds m.pages (ctr + 1) x hx1 with ⟨k1, _, hk1b, he1⟩
    rcases manifestModules_resIds_bounds rest (manifestPages m.pages (ctr + 1)).2.2.2 x hx2
      with ⟨k2, hk2a, _, he2⟩
    subst he1
    have := Ident.gen.inj he2
    omega

/-! ### Structure of `module_meta.xml` -/

theorem metaItems_refs (pages : List PageRec) :
    ∀ (j ctr : Nat), (∀ p ∈ pages, p.identifier.isSome) →
      (metaItems pages j ctr).1.map MetaItem.identifierref =
        pages.map (fun p => p.identifier.getD (Ident.gen 0)) := by
  induction pages with
  | nil => intro j ctr _; rfl
  | cons p ps ih =>
    intro j ctr h
    have hp : p.identifier.isSome := h p (by simp)
    rcases Option.isSome_iff_exists.mp hp with ⟨pid, hpid⟩
    simp only [metaItems, hpid, List.map_cons, Option.getD_some]
    rw [ih (j + 1) (ctr + 1) (fun q hq => h q (by simp [hq]))]

theorem metaRefs_append (a b : List MetaModule) :
    metaRefs (a ++ b) = metaRefs a ++ metaRefs b := by
  simp [metaRefs]

theorem metaModules_refs (ms : List Module) :
    ∀ (i ctr : Nat), (∀ p ∈ (ms.map Module.pages).flatten, p.identifier.isSome) →
      metaRefs ((metaModules ms i ctr).1) =
        ((ms.map Module.pages).flatten).map (fun p => p.identifier.getD (Ident.gen 0)) := by
  induction ms with
  | nil => intro i ctr _; rfl
  | cons m rest ih =>
    intro i ctr h
    simp only [List.map_cons, List.flatten_cons] at h ⊢
    simp only [metaModules, metaRefs, List.map_cons, List.flatten_cons, List.map_append]
    have h1 : ∀ p ∈ m.pages, p.identifier.isSome := fun p hp => h p (by simp [hp])
    have h2 : ∀ p ∈ (rest.map Module.pages).flatten, p.identifier.isSome :=
      fun p hp => h p (by simp [hp])
    rw [metaItems_refs m.pages 0 (ctr + 1) h1]
    have := ih (i + 1) (metaItems m.pages 0 (ctr + 1)).2 h2
    simp only [metaRefs] at this
    rw [this]

theorem metaAdditionalItems_refs (aps : List AddPage) :
    ∀ (j ctr : Nat),
      (metaAdditionalItems aps j ctr).1.map MetaItem.identifierref =
        aps.map AddPage.identifier := by
  induction aps with
  | nil => intro j ctr; rfl
  | cons p ps ih =>
    intro j ctr
    simp only [metaAdditionalItems, List.map_cons, ih]

theorem create_module_meta_refs (ms : List Module) (aps : List AddPage) (ctr : Nat)
    (h : ∀ p ∈ (ms.map Module.pages).flatten, p.identifier.isSome) :
    metaRefs ((create_module_meta ms aps ctr).1) =
      ((ms.map Module.pages).flatten).map (fun p => p.identifier.getD (Ident.gen 0)) ++
        aps.map AddPage.identifier := by
  cases aps with
  | nil =>
    simp only [create_module_meta, List.map_nil, List.append_nil]
    exact metaModules_refs ms 0 ctr h
  | cons q qs =>
    simp only [create_module_meta, metaRefs_append, metaModules_refs ms 0 ctr h]
    simp [metaRefs, metaAdditionalItems_refs]

/-- Core cross-reference closure: for the manifest and module-meta produced
from any module list and any additional pages whose identifiers are pairwise
distinct and do not collide with the manifest's fresh tokens. -/
theorem crossref_core (t : PyStr) (ms : List Module) (aps : List AddPage) (c mctr : Nat)
    (hnodup : (aps.map AddPage.identifier).Nodup)
    (hbound : ∀ x ∈ aps.map AddPage.identifier,
      (∃ s, x = Ident.user s) ∨ ∃ k, k < c ∧ x = Ident.gen k) :
    (resourceIds (create_imsmanifest t ms aps c).1).Nodup ∧
      (∀ r ∈ manifestRefs (create_imsmanifest t ms aps c).1,
        (resourceIds (create_imsmanifest t ms aps c).1).count r = 1) ∧
      (∀ r ∈ metaRefs (create_module_meta (create_imsmanifest t ms aps c).2.1 aps mctr).1,
        (resourceIds (create_imsmanifest t ms aps c).1).count r = 1) := by
  have hres : resourceIds (create_imsmanifest t ms aps c).1 =
      (manifestModules ms (c + 1)).2.1.map Resource.identifier ++
        aps.map AddPage.identifier := by
    simp [resourceIds, create_imsmanifest, List.map_append, List.map_map, Function.comp]
  have hrefs : manifestRefs (create_imsmanifest t ms aps c).1 =
      (manifestModules ms (c + 1)).2.1.map Resource.identifier := by
    simp only [manifestRefs, create_imsmanifest]
    exact manifestModules_refs_eq_resIds ms (c + 1)
  have hIds := manifestModules_page_idents ms (c + 1)
  have hSome : ∀ p ∈ ((manifestModules ms (c + 1)).2.2.1.map Module.pages).flatten,
      p.identifier.isSome := by
    intro p hp
    have hm : p.identifier ∈
        (((manifestModules ms (c + 1)).2.2.1.map Module.pages).flatten).map
          PageRec.identifier := List.mem_map_of_mem _ hp
    rw [hIds] at hm
    rcases List.mem_map.mp hm with ⟨a, _, ha⟩
    rw [← ha]
    rfl
  have hGetD : (((manifestModules ms (c + 1)).2.2.1.map Module.pages).flatten).map
      (fun p => p.identifier.getD (Ident.gen 0)) =
      (manifestModules ms (c + 1)).2.1.map Resource.identifier := by
    have hcomp : (fun p : PageRec => p.identifier.getD (Ident.gen 0)) =
        (fun o : Option Ident => o.getD (Ident.gen 0)) ∘ PageRec.identifier := rfl
    rw [hcomp, ← List.map_map, hIds, List.map_map]
    simp
  have hmeta : metaRefs (create_module_meta (create_imsmanifest t ms aps c).2.1 aps mctr).1 =
      (manifestModules ms (c + 1)).2.1.map Resource.identifier ++
        aps.map AddPage.identifier := by
    have h2 : (create_imsmanifest t ms aps c).2.1 = (manifestModules ms (c + 1)).2.2.1 := rfl
    rw [h2, create_module_meta_refs _ _ _ hSome, hGetD]
  have hAnodup := manifestModules_resIds_nodup ms (c + 1)
  have hdisj : ((manifestModules ms (c + 1)).2.1.map Resource.identifier).Disjoint
      (aps.map AddPage.identifier) := by
    rw [List.disjoint_left]
    intro x hxA hxB
    rcases manifestModules_resIds_bounds ms (c + 1) x hxA with ⟨k, hk1, _, he⟩
    rcases hbound x hxB with ⟨s, hs⟩ | ⟨k2, hk2, he2⟩
    · subst he; exact Ident.noConfusion hs
    · subst he
      have := Ident.gen.inj he2
      omega
  have hcnt1 : ∀ r ∈ (manifestModules ms (c + 1)).2.1.map Resource.identifier,
      (resourceIds (create_imsmanifest t ms aps c).1).count r = 1 := by
    intro r hr
    rw [hres, List.count_append, List.count_eq_one_of_mem hAnodup hr,
      List.count_eq_zero.mpr (fun hmem => (List.disjoint_left.mp hdisj) hr hmem)]
  have hcnt2 : ∀ r ∈ aps.map AddPage.identifier,
      (resourceIds (create_imsmanifest t ms aps c).1).count r = 1 := by
    intro r hr
    rw [hres, List.count_append,
      List.count_eq_zero.mpr (fun hmem => (List.disjoint_left.mp hdisj) hmem hr),
      List.count_eq_one_of_mem hnodup hr]
  refine ⟨?_, ?_, ?_⟩
  · rw [hres]
    exact List.Nodup.append hAnodup hnodup hdisj
  · intro r hr
    rw [hrefs] at hr
    exact hcnt1 r hr
  · intro r hr
    rw [hmeta] at hr
    rcases List.mem_append.mp hr with hr | hr
    · exact hcnt1 r hr
    · exact hcnt2 r hr

/-- Claim C6 (amended): in every conversion run in which the identifiers
extracted from the additional HTML pages are pairwise distinct, every
`identifierref` on an `<item>` of `imsmanifest.xml` or `module_meta.xml`
resolves to exactly one declared `<resource>` identifier, and the resource
identifiers are pairwise distinct.  (Without that proviso two additional pages
declaring the same identifier yield duplicate resources; fresh uuid tokens are
modelled as collision-free.) -/
theorem C6_crossref_closure_amended (activities : List Activity) (ct bu uf : PyStr)
    (files : List (PyStr × PyStr))
    (hnodup : (((process_additional_html files 0).1).map AddPage.identifier).Nodup) :
    (resourceIds (create_imscc_package activities ct bu uf files).manifest).Nodup ∧
      (∀ r ∈ manifestRefs (create_imscc_package activities ct bu uf files).manifest,
        (resourceIds (create_imscc_package activities ct bu uf files).manifest).count r = 1) ∧
      (∀ r ∈ metaRefs (create_imscc_package activities ct bu uf files).module_meta,
        (resourceIds (create_imscc_package activities ct bu uf files).manifest).count r = 1) := by
  have hbound : ∀ x ∈ ((process_additional_html files 0).1).map AddPage.identifier,
      (∃ s, x = Ident.user s) ∨
        ∃ k, k < (renderModules bu uf (organize_activities activities)
          (process_additional_html files 0).2).2.2 ∧ x = Ident.gen k := by
    intro x hx
    rcases List.mem_map.mp hx with ⟨p, hp, hxe⟩
    rcases process_additional_html_idents files 0 p hp with ⟨s, hs⟩ | ⟨k, _, hk2, hk3⟩
    · exact Or.inl ⟨s, by rw [← hxe, hs]⟩
    · refine Or.inr ⟨k, ?_, by rw [← hxe, hk3]⟩
      have := renderModules_le bu uf (organize_activities activities)
        (process_additional_html files 0).2
      omega
  exact crossref_core ct
    (renderModules bu uf (organize_activities activities)
      (process_additional_html files 0).2).2.1
    (process_additional_html files 0).1
    (renderModules bu uf (organize_activities activities)
      (process_additional_html files 0).2).2.2
    ((create_imsmanifest ct
        (renderModules bu uf (organize_activities activities)
          (process_additional_html files 0).2).2.1
        (process_additional_html files 0).1
        (renderModules bu uf (organize_activities activities)
          (process_additional_html files 0).2).2.2).2.2 + 1)
    hnodup hbound

def c6wActs : List Activity :=
  [⟨pystr "s9", pystr "http://y/s9", pystr "Unit 9", [], ActType.section⟩,
    ⟨pystr "b9", pystr "http://y/b9", pystr "Lesson 9", [], ActType.block⟩]

def c6wFiles : List (PyStr × PyStr) :=
  [(pystr "extra.html", pystr "<meta name=\"identifier\" content=\"X\">")]

/-- Witness for C6 on a run with one module, one page and one additional page
with a distinct identifier. -/
theorem C6_witness :
    (resourceIds (create_imscc_package c6wActs (pystr "T") (pystr "http://b")
        (pystr "blocks") c6wFiles).manifest).Nodup ∧
      (∀ r ∈ manifestRefs (create_imscc_package c6wActs (pystr "T") (pystr "http://b")
          (pystr "blocks") c6wFiles).manifest,
        (resourceIds (create_imscc_package c6wActs (pystr "T") (pystr "http://b")
          (pystr "blocks") c6wFiles).manifest).count r = 1) ∧
      (∀ r ∈ metaRefs (create_imscc_package c6wActs (pystr "T") (pystr "http://b")
          (pystr "blocks") c6wFiles).module_meta,
        (resourceIds (create_imscc_package c6wActs (pystr "T") (pystr "http://b")
          (pystr "blocks") c6wFiles).manifest).count r = 1) :=
  C6_crossref_closure_amended c6wActs (pystr "T") (pystr "http://b") (pystr "blocks")
    c6wFiles (by decide)

/-! ### Overwrite semantics of sequential file writes (claim C10)

The conversion writes each rendered page to `wiki_content/{slug}.html` in
order; on a path collision the later write replaces the earlier file.
`applyWrites` is the resulting file-system state. -/

def applyWritesFrom (fs0 : PyStr → Option FileContent)
    (ws : List (PyStr × FileContent)) : PyStr → Option FileContent :=
  ws.foldl (fun fs w => fun q => if q = w.1 then some w.2 else fs q) fs0

def applyWrites (ws : List (PyStr × FileContent)) : PyStr → Option FileContent :=
  applyWritesFrom (fun _ => none) ws

theorem applyWritesFrom_append (fs0 : PyStr → Option FileContent)
    (xs ys : List (PyStr × FileContent)) :
    applyWritesFrom fs0 (xs ++ ys) = applyWritesFrom (applyWritesFrom fs0 xs) ys := by
  simp [applyWritesFrom, List.foldl_append]

theorem applyWritesFrom_no_match (ws : List (PyStr × FileContent)) :
    ∀ (fs0 : PyStr → Option FileContent) (q : PyStr), (∀ w ∈ ws, w.1 ≠ q) →
      applyWritesFrom fs0 ws q = fs0 q := by
  induction ws with
  | nil => intro fs0 q _; rfl
  | cons w ws ih =>
    intro fs0 q h
    simp only [applyWritesFrom, List.foldl_cons] at *
    rw [ih _ q (fun v hv => h v (by simp [hv]))]
    simp [Ne.symm (h w (by simp))]

/-- The later of two writes to the same path wins: if every write after `w`
touches a different path, the file system maps `q` to `w`'s content. -/
theorem applyWrites_last_write (W1 W2 : List (PyStr × FileContent))
    (w : PyStr × FileContent) (q : PyStr) (hq : w.1 = q)
    (hW2 : ∀ v ∈ W2, v.1 ≠ q) :
    applyWrites (W1 ++ w :: W2) q = some w.2 := by
  have hsplit : W1 ++ w :: W2 = (W1 ++ [w]) ++ W2 := by simp
  rw [applyWrites, hsplit, applyWritesFrom_append, applyWritesFrom_no_match W2 _ q hW2,
    applyWritesFrom_append]
  simp [applyWritesFrom, hq]

theorem wikiHref_inj {a b : PyStr} (h : wikiHref a = wikiHref b) : a = b := by
  unfold wikiHref at h
  exact List.append_cancel_left (List.append_cancel_right h)

/-! ### Decomposition of the rendering and manifest loops -/

theorem takeWhile_all {α : Type} (p : α → Bool) (l : List α)
    (h : ∀ a ∈ l, p a = true) : l.takeWhile p = l := by
  induction l with
  | nil => rfl
  | cons a as ih =>
    rw [List.takeWhile_cons, if_pos (h a (by simp)), ih (fun x hx => h x (by simp [hx]))]

theorem dropWhile_all {α : Type} (p : α → Bool) (l : List α)
    (h : ∀ a ∈ l, p a = true) : l.dropWhile p = [] := by
  induction l with
  | nil => rfl
  | cons a as ih =>
    rw [List.dropWhile_cons, if_pos (h a (by simp))]
    exact ih (fun x hx => h x (by simp [hx]))

/-- One Section followed only by Blocks yields exactly one module holding all
of them. -/
theorem organize_single_module (sec : Activity) (L : List Activity)
    (hsec : sec.type = ActType.section) (hbl : ∀ b ∈ L, b.type = ActType.block) :
    organize_activities (sec :: L) = [⟨sec.name, sec.id, L.map toPageRec⟩] := by
  rw [organize_activities_eq_organizeSpec, organizeSpec_cons,
    if_pos (by simp [isSectionA, hsec])]
  rw [takeWhile_all _ L (fun a ha => by simp [isSectionA, hbl a ha]),
    dropWhile_all _ L (fun a ha => by simp [isSectionA, hbl a ha]), organizeSpec_nil]

theorem renderPages_counter (bu uf : PyStr) (ps : List PageRec) :
    ∀ c : Nat, (renderPages bu uf ps c).2.2 = c + ps.length := by
  induction ps with
  | nil => intro c; rfl
  | cons p ps ih =>
    intro c
    simp only [renderPages, create_html_page, ih, List.length_cons]
    omega

theorem renderPages_append (bu uf : PyStr) (xs ys : List PageRec) :
    ∀ c : Nat,
      (renderPages bu uf (xs ++ ys) c).1 =
        (renderPages bu uf xs c).1 ++ (renderPages bu uf ys (c + xs.length)).1 := by
  induction xs with
  | nil => intro c; simp [renderPages]
  | cons p xs ih =>
    intro c
    simp only [List.cons_append, List.append_eq, renderPages, create_html_page,
      List.length_cons]
    rw [ih (c + 1)]
    have hc : c + 1 + xs.length = c + (xs.length + 1) := by omega
    rw [hc]

theorem renderPages_writes_mem (bu uf : PyStr) (ps : List PageRec) :
    ∀ c : Nat, ∀ w ∈ (renderPages bu uf ps c).1,
      ∃ p ∈ ps, w.1 = wikiHref (create_safe_filename p.name) := by
  induction ps with
  | nil => intro c w hw; simp [renderPages] at hw
  | cons p ps ih =>
    intro c w hw
    simp only [renderPages, create_html_page, List.mem_cons] at hw
    rcases hw with hw | hw
    · exact ⟨p, by simp, by rw [hw]⟩
    · rcases ih (c + 1) w hw with ⟨q, hq, hqe⟩
      exact ⟨q, by simp [hq], hqe⟩

theorem renderPages_names (bu uf : PyStr) (ps : List PageRec) :
    ∀ c : Nat,
      ((renderPages bu uf ps c).2.1).map (fun p => p.name) =
        ps.map (fun p => p.name) := by
  induction ps with
  | nil => intro c; rfl
  | cons p ps ih =>
    intro c
    simp only [renderPages, create_html_page, List.map_cons, ih]

theorem manifestPages_res_of_names : ∀ (ps1 ps2 : List PageRec) (c : Nat),
    ps1.map (fun p => p.name) = ps2.map (fun p => p.name) →
    (manifestPages ps1 c).2.1 = (manifestPages ps2 c).2.1 := by
  intro ps1
  induction ps1 with
  | nil =>
    intro ps2 c h
    cases ps2 with
    | nil => rfl
    | cons q qs => simp at h
  | cons p ps ih =>
    intro ps2 c h
    cases ps2 with
    | nil => simp at h
    | cons q qs =>
      simp only [List.map_cons, List.cons.injEq] at h
      simp only [manifestPages, h.1, ih qs (c + 2) h.2]

theorem manifestPages_res_append (xs ys : List PageRec) :
    ∀ c : Nat,
      (manifestPages (xs ++ ys) c).2.1 =
        (manifestPages xs c).2.1 ++ (manifestPages ys (c + 2 * xs.length)).2.1 := by
  induction xs with
  | nil => intro c; simp [manifestPages]
  | cons p xs ih =>
    intro c
    simp only [List.cons_append, List.append_eq, manifestPages, List.length_cons]
    rw [ih (c + 2)]
    have hc : c + 2 + 2 * xs.length = c + 2 * (xs.length + 1) := by omega
    rw [hc]

/-- Claim C10: when two Pages of a run have names with equal slugs (here: the
Blocks `bi` and `bj` of one module, with `bj` the last colliding one), their
rendered documents are both written to the same `wiki_content/{slug}.html`
path; the later write overwrites the earlier one (the file system maps the
path to `bj`'s document, and the two documents differ — their embedded
identifiers are distinct), while `imsmanifest.xml` still declares one
`<resource>` per Page, with distinct identifiers, all pointing at that single
file. -/
theorem C10_slug_collision_overwrite
    (sec bi bj : Activity) (pre mid post : List Activity) (ct bu uf : PyStr)
    (hsec : sec.type = ActType.section)
    (hbl : ∀ b ∈ pre ++ bi :: mid ++ bj :: post, b.type = ActType.block)
    (hslug : create_safe_filename bi.name = create_safe_filename bj.name)
    (hlast : ∀ b ∈ post, create_safe_filename b.name ≠ create_safe_filename bj.name) :
    ∃ (W1 W2 W3 : List (PyStr × FileContent)) (di dj : HtmlDoc)
      (R1 R2 R3 : List Resource) (ri rj : Ident),
      ((create_imscc_package (sec :: (pre ++ bi :: mid ++ bj :: post)) ct bu uf []).writes =
          W1 ++ (wikiHref (create_safe_filename bj.name), FileContent.page di) ::
            (W2 ++ (wikiHref (create_safe_filename bj.name), FileContent.page dj) :: W3)) ∧
        di.title = bi.name ∧ dj.title = bj.name ∧ di.identifier ≠ dj.identifier ∧
        applyWrites
            ((create_imscc_package (sec :: (pre ++ bi :: mid ++ bj :: post)) ct bu uf
              []).writes)
            (wikiHref (create_safe_filename bj.name)) =
          some (FileContent.page dj) ∧
        ((create_imscc_package (sec :: (pre ++ bi :: mid ++ bj :: post)) ct bu uf
              []).manifest.resources =
          R1 ++ Resource.mk ri (wikiHref (create_safe_filename bj.name)) ::
            (R2 ++ Resource.mk rj (wikiHref (create_safe_filename bj.name)) :: R3)) ∧
        ri ≠ rj := by
  have horg := organize_single_module sec (pre ++ bi :: mid ++ bj :: post) hsec hbl
  have hwrites :
      (create_imscc_package (sec :: (pre ++ bi :: mid ++ bj :: post)) ct bu uf []).writes =
        (renderPages bu uf ((pre ++ bi :: mid ++ bj :: post).map toPageRec) 0).1 := by
    simp only [create_imscc_package]
    rw [horg]
    simp [process_additional_html, renderModules]
  have hwdecomp :
      (renderPages bu uf ((pre ++ bi :: mid ++ bj :: post).map toPageRec) 0).1 =
        (renderPages bu uf (pre.map toPageRec) 0).1 ++
          (wikiHref (create_safe_filename bi.name),
            FileContent.page ⟨bi.name, Ident.gen (0 + (pre.map toPageRec).length),
              pystr "teachers", pystr "active",
              bu ++ pystr "/index.html#/" ++ uf ++ pystr "/" ++ bi.id⟩) ::
          (renderPages bu uf (mid.map toPageRec) (0 + (pre.map toPageRec).length + 1)).1 ++
          (wikiHref (create_safe_filename bj.name),
            FileContent.page ⟨bj.name,
              Ident.gen (0 + (pre.map toPageRec ++ toPageRec bi :: mid.map toPageRec).length),
              pystr "teachers", pystr "active",
              bu ++ pystr "/index.html#/" ++ uf ++ pystr "/" ++ bj.id⟩) ::
          (renderPages bu uf (post.map toPageRec)
            (0 + (pre.map toPageRec ++ toPageRec bi :: mid.map toPageRec).length + 1)).1 := by
    rw [List.map_append, List.map_append, List.map_cons, List.map_cons,
      renderPages_append, renderPages_append]
    simp only [renderPages, create_html_page]
    rfl
  have hres :
      (create_imscc_package (sec :: (pre ++ bi :: mid ++ bj :: post)) ct bu uf
          []).manifest.resources =
        (manifestPages
          (renderPages bu uf ((pre ++ bi :: mid ++ bj :: post).map toPageRec) 0).2.1
          ((renderPages bu uf ((pre ++ bi :: mid ++ bj :: post).map toPageRec) 0).2.2 +
            1 + 1)).2.1 := by
    simp only [create_imscc_package]
    rw [horg]
    simp [process_additional_html, renderModules, create_imsmanifest, manifestModules]
  have hres2 :
      (manifestPages
          (renderPages bu uf ((pre ++ bi :: mid ++ bj :: post).map toPageRec) 0).2.1
          ((renderPages bu uf ((pre ++ bi :: mid ++ bj :: post).map toPageRec) 0).2.2 +
            1 + 1)).2.1 =
        (manifestPages ((pre ++ bi :: mid ++ bj :: post).map toPageRec)
          ((renderPages bu uf ((pre ++ bi :: mid ++ bj :: post).map toPageRec) 0).2.2 +
            1 + 1)).2.1 :=
    manifestPages_res_of_names _ _ _
      (renderPages_names bu uf ((pre ++ bi :: mid ++ bj :: post).map toPageRec) 0)
  have hrdecomp :
      (manifestPages ((pre ++ bi :: mid ++ bj :: post).map toPageRec)
          ((renderPages bu uf ((pre ++ bi :: mid ++ bj :: post).map toPageRec) 0).2.2 +
            1 + 1)).2.1 =
        (manifestPages (pre.map toPageRec)
          ((renderPages bu uf ((pre ++ bi :: mid ++ bj :: post).map toPageRec) 0).2.2 +
            1 + 1)).2.1 ++
          Resource.mk
            (Ident.gen
              ((renderPages bu uf ((pre ++ bi :: mid ++ bj :: post).map toPageRec) 0).2.2 +
                1 + 1 + 2 * (pre.map toPageRec).length))
            (wikiHref (create_safe_filename bi.name)) ::
          (manifestPages (mid.map toPageRec)
            ((renderPages bu uf ((pre ++ bi :: mid ++ bj :: post).map toPageRec) 0).2.2 +
              1 + 1 + 2 * (pre.map toPageRec).length + 2)).2.1 ++
          Resource.mk
            (Ident.gen
              ((renderPages bu uf ((pre ++ bi :: mid ++ bj :: post).map toPageRec) 0).2.2 +
                1 + 1 +
                2 * (pre.map toPageRec ++ toPageRec bi :: mid.map toPageRec).length))
            (wikiHref (create_safe_filename bj.name)) ::
          (manifestPages (post.map toPageRec)
            ((renderPages bu uf ((pre ++ bi :: mid ++ bj :: post).map toPageRec) 0).2.2 +
              1 + 1 +
              2 * (pre.map toPageRec ++ toPageRec bi :: mid.map toPageRec).length +
              2)).2.1 := by
    rw [List.map_append, List.map_append, List.map_cons, List.map_cons,
      manifestPages_res_append, manifestPages_res_append]
    simp only [manifestPages]
    rfl
  rw [hslug] at hwdecomp hrdecomp
  have hW3 : ∀ v ∈ (renderPages bu uf (post.map toPageRec)
      (0 + (pre.map toPageRec ++ toPageRec bi :: mid.map toPageRec).length + 1)).1,
      v.1 ≠ wikiHref (create_safe_filename bj.name) := by
    intro v hv hveq
    rcases renderPages_writes_mem bu uf (post.map toPageRec) _ v hv with ⟨p, hp, hpe⟩
    rcases List.mem_map.mp hp with ⟨b, hb, hbe⟩
    have h1 : wikiHref (create_safe_filename p.name) =
        wikiHref (create_safe_filename bj.name) := by rw [← hpe, hveq]
    have h2 := wikiHref_inj h1
    rw [← hbe] at h2
    exact hlast b hb (by simpa [toPageRec] using h2)
  refine ⟨(renderPages bu uf (pre.map toPageRec) 0).1,
    (renderPages bu uf (mid.map toPageRec) (0 + (pre.map toPageRec).length + 1)).1,
    (renderPages bu uf (post.map toPageRec)
      (0 + (pre.map toPageRec ++ toPageRec bi :: mid.map toPageRec).length + 1)).1,
    ⟨bi.name, Ident.gen (0 + (pre.map toPageRec).length), pystr "teachers", pystr "active",
      bu ++ pystr "/index.html#/" ++ uf ++ pystr "/" ++ bi.id⟩,
    ⟨bj.name, Ident.gen (0 + (pre.map toPageRec ++ toPageRec bi :: mid.map toPageRec).length),
      pystr "teachers", pystr "active",
      bu ++ pystr "/index.html#/" ++ uf ++ pystr "/" ++ bj.id⟩,
    (manifestPages (pre.map toPageRec)
      ((renderPages bu uf ((pre ++ bi :: mid ++ bj :: post).map toPageRec) 0).2.2 +
        1 + 1)).2.1,
    (manifestPages (mid.map toPageRec)
      ((renderPages bu uf ((pre ++ bi :: mid ++ bj :: post).map toPageRec) 0).2.2 +
        1 + 1 + 2 * (pre.map toPageRec).length + 2)).2.1,
    (manifestPages (post.map toPageRec)
      ((renderPages bu uf ((pre ++ bi :: mid ++ bj :: post).map toPageRec) 0).2.2 +
        1 + 1 + 2 * (pre.map toPageRec ++ toPageRec bi :: mid.map toPageRec).length +
        2)).2.1,
    Ident.gen
      ((renderPages bu uf ((pre ++ bi :: mid ++ bj :: post).map toPageRec) 0).2.2 +
        1 + 1 + 2 * (pre.map toPageRec).length),
    Ident.gen
      ((renderPages bu uf ((pre ++ bi :: mid ++ bj :: post).map toPageRec) 0).2.2 +
        1 + 1 + 2 * (pre.map toPageRec ++ toPageRec bi :: mid.map toPageRec).length),
    ?_, rfl, rfl, ?_, ?_, ?_, ?_⟩
  · rw [hwrites, hwdecomp]
    simp [List.append_assoc]
  · intro h
    have h2 := Ident.gen.inj h
    rw [List.length_append, List.length_cons] at h2
    omega
  · rw [hwrites, hwdecomp]
    exact applyWrites_last_write _ _ _ _ rfl hW3
  · rw [hres, hres2, hrdecomp]
    simp [List.append_assoc]
  · intro h
    have h2 := Ident.gen.inj h
    rw [List.length_append, List.length_cons] at h2
    omega

def c10Sec : Activity := ⟨pystr "s0", pystr "http://z/s0", pystr "Unit", [], ActType.section⟩

def c10BlockA : Activity := ⟨pystr "bA", pystr "http://z/bA", pystr "Dup", [], ActType.block⟩

def c10BlockB : Activity := ⟨pystr "bB", pystr "http://z/bB", pystr "Dup", [], ActType.block⟩

/-- Witness for C10: two Blocks named `"Dup"` in one module collide on
`wiki_content/dup.html`. -/
theorem C10_witness :
    ∃ (W1 W2 W3 : List (PyStr × FileContent)) (di dj : HtmlDoc)
      (R1 R2 R3 : List Resource) (ri rj : Ident),
      ((create_imscc_package (c10Sec :: ([] ++ c10BlockA :: [] ++ c10BlockB :: []))
          (pystr "T") (pystr "http://b") (pystr "blocks") []).writes =
          W1 ++ (wikiHref (create_safe_filename c10BlockB.name), FileContent.page di) ::
            (W2 ++ (wikiHref (create_safe_filename c10BlockB.name), FileContent.page dj) ::
              W3)) ∧
        di.title = c10BlockA.name ∧ dj.title = c10BlockB.name ∧
        di.identifier ≠ dj.identifier ∧
        applyWrites
            ((create_imscc_package (c10Sec :: ([] ++ c10BlockA :: [] ++ c10BlockB :: []))
              (pystr "T") (pystr "http://b") (pystr "blocks") []).writes)
            (wikiHref (create_safe_filename c10BlockB.name)) =
          some (FileContent.page dj) ∧
        ((create_imscc_package (c10Sec :: ([] ++ c10BlockA :: [] ++ c10BlockB :: []))
              (pystr "T") (pystr "http://b") (pystr "blocks") []).manifest.resources =
          R1 ++ Resource.mk ri (wikiHref (create_safe_filename c10BlockB.name)) ::
            (R2 ++ Resource.mk rj (wikiHref (create_safe_filename c10BlockB.name)) :: R3)) ∧
        ri ≠ rj :=
  C10_slug_collision_overwrite c10Sec c10BlockA c10BlockB [] [] []
    (pystr "T") (pystr "http://b") (pystr "blocks") rfl (by decide) rfl (by decide)

end RiseImscc
